import Mathlib

/-!
# Verification of the YASTM soul-trap allocation engine

Shallow embedding of `src/src/trapsoul/trapsoul.cpp` (the allocation engine of
the yastm repository) together with theorems settling the frozen claims about
its natural-language specification.

Conventions of the embedding:

* Soul sizes are numbers, mirroring the ordered C++ `SoulSize` enum:
  `None = 0, Petty = 1, Lesser = 2, Common = 3, Greater = 4, Grand = 5,
  Black = 6`.  `Black` compares as the maximum tier, as required by the
  priority queue.
* Soul-gem capacity tiers are numbers mirroring the ordered C++
  `SoulGemCapacity` enum (modelled from the spec, the enum header is not part
  of the given sources): white tiers `Petty = 1 … Grand = 5`, then `Dual = 6`
  (holds a black soul or a white grand soul) and `Black = 7`.
  `First = 1` and `LastWhite = 6` (dual gems are the last tier searched for
  white souls).
* The game engine (actors, inventories, notifications, statistics) is an
  explicit `World` value; the C++ functions become pure state transformers.
-/

set_option maxHeartbeats 2000000

namespace Yastm

/-- Modelled from the spec: `toCapacity`/`toSoulGemCapacity` maps a white soul
size to the smallest capacity able to hold it unshrunk; the Black size maps to
the dedicated Black capacity tier. -/
def toSoulGemCapacity (s : Nat) : Nat :=
  if s = 6 then 7 else s

/-- Modelled from the spec: `toSize`/`toSoulSize` is the inverse of
`toSoulGemCapacity` on white tiers; the Dual tier holds at most a white Grand
soul, the Black tier a black soul. -/
def toSoulSize (c : Nat) : Nat :=
  if c = 7 then 6 else if c = 6 then 5 else c

/-- A concrete soul-gem kind: one member of a `ConcreteSoulGemGroup`
(`family`, its capacity tier) at a given currently-contained soul size. -/
structure GemKind where
  family : Nat
  capacity : Nat
  contained : Nat
  deriving Repr, DecidableEq

/-- `canHoldBlackSoul`: dual- and black-capacity gems can hold a black soul. -/
def canHoldBlackSoul (g : GemKind) : Bool :=
  6 ≤ g.capacity

/-- `RE::TESSoulGem::GetMaximumCapacity` as a `SOUL_LEVEL` (saturates at
Grand: dual and black gems report Grand). -/
def gemMaxSoulLevel (g : GemKind) : Nat :=
  if 6 ≤ g.capacity then 5 else g.capacity

/-- `RE::TESSoulGem::GetContainedSoul` as a `SOUL_LEVEL` (a contained black
soul reports Grand). -/
def gemContainedSoulLevel (g : GemKind) : Nat :=
  min g.contained 5

/-- A gem kind counted as fully-filled by `_SoulTrapData::_resetInventoryData`:
`GetMaximumCapacity() == GetContainedSoul()`. -/
def isMaxFilled (g : GemKind) : Bool :=
  gemMaxSoulLevel g == gemContainedSoulLevel g

/-- The part of an `RE::ExtraDataList` the engine reads: an optional owner and
the soul level of an unaccounted extra soul (`0` = `SOUL_LEVEL::kNone`). -/
structure Extra where
  owner : Option Nat
  soulLevel : Nat
  deriving Repr, DecidableEq

/-- One entry of an actor's inventory: a gem kind, the owned quantity, and the
first extra-data list of the entry (if any). -/
structure InvSlot where
  gem : GemKind
  count : Nat
  extra : Option Extra
  deriving Repr, DecidableEq

/-- An actor's inventory, the codomain of `getInventoryFor` restricted to soul
gems (every `GemKind` is a soul gem in this model). -/
abbrev Inventory := List InvSlot

/-- Look up a gem kind in an inventory map: quantity and first extra list. -/
def invLookup : Inventory → GemKind → Option (Nat × Option Extra)
  | [], _ => none
  | s :: rest, k => if s.gem = k then some (s.count, s.extra) else invLookup rest k

/-- Owned quantity of a gem kind (0 when the kind is absent). -/
def invCount (inv : Inventory) (k : GemKind) : Nat :=
  match invLookup inv k with
  | some (n, _) => n
  | none => 0

/-- `AddObjectToContainer` with one unit of kind `k` carrying extra list `e`. -/
def invAdd : Inventory → GemKind → Option Extra → Inventory
  | [], k, e => [⟨k, 1, e⟩]
  | s :: rest, k, e =>
    if s.gem = k then
      { s with count := s.count + 1, extra := s.extra.orElse (fun _ => e) } :: rest
    else
      s :: invAdd rest k e

/-- `RemoveItem` of one unit of kind `k`, the removed unit carrying extra list
`e`. -/
def invRemove : Inventory → GemKind → Option Extra → Inventory
  | [], _, _ => []
  | s :: rest, k, e =>
    if s.gem = k then
      if s.count ≤ 1 then rest
      else { s with count := s.count - 1, extra := if s.extra = e then none else s.extra } :: rest
    else
      s :: invRemove rest k e

/-- The soul-gem map (container catalog): all known gem kinds in construction
order.  Read-only after configuration load. -/
abbrev Catalog := List GemKind

/-- `SoulGemMap::getSoulGemsWith(capacity, containedSoulSize)`: the gem kinds
of one capacity tier at one contained size, in catalog order. -/
def getSoulGemsWith (cat : Catalog) (capacity contained : Nat) : List GemKind :=
  cat.filter (fun g => g.capacity == capacity && g.contained == contained)

/-- The engine-side view of an actor used by `trapSoul`. -/
structure ActorInfo where
  isDead : Bool
  soulLevel : Nat
  isPlayerRef : Bool
  isPlayerTeammate : Bool
  hasProcess : Bool
  trapped : Bool
  deriving Repr, DecidableEq

def defaultActor : ActorInfo :=
  ⟨false, 0, false, false, false, false⟩

/-- User-facing notification messages of the soul-trap engine. -/
inductive Msg where
  | soulCaptured
  | soulDisplaced
  | soulShrunk
  | soulSplit
  | noSoulGemsOwned
  | allSoulGemsFilled
  | noSuitableSoulGem
  | noSoulGemLargeEnough
  deriving Repr, DecidableEq

/-- Association-list lookup keyed by actor id. -/
def getAssoc {β : Type} : List (Nat × β) → Nat → Option β
  | [], _ => none
  | (b, x) :: rest, a => if b = a then some x else getAssoc rest a

/-- Association-list update keyed by actor id. -/
def setAssoc {β : Type} : List (Nat × β) → Nat → β → List (Nat × β)
  | [], a, x => [(a, x)]
  | (b, y) :: rest, a, x =>
    if b = a then (b, x) :: rest else (b, y) :: setAssoc rest a x

/-- The host environment: actors, per-actor inventories, the resolvable player
reference, and the two outward-facing sinks (notifications, statistics). -/
structure World where
  actors : List (Nat × ActorInfo)
  inventories : List (Nat × Inventory)
  playerRef : Option Nat
  notifications : List Msg
  statEvents : List (Nat × Option Nat)
  deriving Repr, DecidableEq

def getActor (w : World) (a : Nat) : ActorInfo :=
  (getAssoc w.actors a).getD defaultActor

def getInv (w : World) (a : Nat) : Inventory :=
  (getAssoc w.inventories a).getD []

def setInv (w : World) (a : Nat) (inv : Inventory) : World :=
  { w with inventories := setAssoc w.inventories a inv }

/-- Flag a victim as soul-trapped (`process->middleHigh->unk325 = true`). -/
def setTrapped (w : World) (a : Nat) : World :=
  { w with actors := setAssoc w.actors a { getActor w a with trapped := true } }

/-- `EnumConfigKey::SoulShrinkingTechnique` values. -/
inductive Technique where
  | none
  | shrink
  | split
  deriving Repr, DecidableEq

/-- The boolean configuration keys consumed by the engine plus the shrinking
technique; a `YASTMConfig::Snapshot`. -/
structure Config where
  allowSoulDiversion : Bool
  performSoulDiversionInDLL : Bool
  allowNotifications : Bool
  allowExtraSoulRelocation : Bool
  preserveOwnership : Bool
  allowSoulDisplacement : Bool
  allowSoulRelocation : Bool
  allowPartiallyFilling : Bool
  allowProfiling : Bool
  technique : Technique
  deriving Repr, DecidableEq

/-- How a `Victim` value was constructed (its C++ constructor overload):
the originally supplied victim, a soul born from splitting, or a displaced
soul re-queued without an actor. -/
inductive VictimKind where
  | primarySoul
  | splitSoul
  | displacedSoul
  deriving Repr, DecidableEq

/-- A pending soul-placement work item. -/
structure Victim where
  actor : Option Nat
  soulSize : Nat
  kind : VictimKind
  deriving Repr, DecidableEq

def Victim.isPrimarySoul (v : Victim) : Bool :=
  v.kind == .primarySoul

def Victim.isSplitSoul (v : Victim) : Bool :=
  v.kind == .splitSoul

/-- Insertion into the victims priority queue (`std::priority_queue`, largest
soul size first; ties keep insertion order, which the queue leaves
unspecified). The queue is the sorted list, its head the top. -/
def vqInsert (v : Victim) : List Victim → List Victim
  | [] => [v]
  | u :: us => if u.soulSize < v.soulSize then v :: u :: us else u :: vqInsert v us

/-- `_InventoryStatus`. -/
inductive InventoryStatus where
  | hasSoulGemsToFill
  | noSoulGemsOwned
  | allSoulGemsFilled
  deriving Repr, DecidableEq

/-- `_SoulTrapData`: per-call session bookkeeping.  `curVictim` is the popped
victim currently being processed (`_victim`), `processed` records every victim
ever popped from the queue (an observation used by the theorems; the C++ code
does not store it). -/
structure SoulTrapData where
  config : Config
  caster : Nat
  notifyCount : Nat
  isStatIncremented : Bool
  isInventoryMapDirty : Bool
  casterInventoryStatus : InventoryStatus
  inventoryMap : Inventory
  victims : List Victim
  curVictim : Victim
  processed : List Victim
  deriving Repr, DecidableEq

def dummyVictim : Victim :=
  ⟨none, 0, .primarySoul⟩

/-- Session state threaded through the strategies. -/
abbrev St := SoulTrapData × World

/-- The `_SoulTrapData` constructor: snapshot the configuration and divert the
session to the player when soul diversion applies to a teammate caster. -/
def mkSoulTrapData (cfg : Config) (w : World) (caster : Nat) : SoulTrapData :=
  let finalCaster :=
    if cfg.allowSoulDiversion && cfg.performSoulDiversionInDLL
        && !(getActor w caster).isPlayerRef && (getActor w caster).isPlayerTeammate then
      match w.playerRef with
      | some p => p
      | none => caster
    else caster
  { config := cfg
    caster := finalCaster
    notifyCount := 0
    isStatIncremented := false
    isInventoryMapDirty := true
    casterInventoryStatus := .hasSoulGemsToFill
    inventoryMap := []
    victims := []
    curVictim := dummyVictim
    processed := [] }

/-- `_SoulTrapData::_resetInventoryData`: rebuild the snapshot from the
caster's inventory and recompute the inventory status. -/
def resetInventoryData (d : SoulTrapData) (w : World) : SoulTrapData :=
  let m := getInv w d.caster
  let status :=
    if m.length = 0 then InventoryStatus.noSoulGemsOwned
    else if m.all (fun s => isMaxFilled s.gem) then InventoryStatus.allSoulGemsFilled
    else InventoryStatus.hasSoulGemsToFill
  { d with
      inventoryMap := m
      casterInventoryStatus := status
      isInventoryMapDirty := false }

/-- `_SoulTrapData::updateLoopVariables`: pop the top victim and refresh the
inventory snapshot when dirty.  Only called by the driver while the queue is
nonempty. -/
def updateLoopVariables (d : SoulTrapData) (w : World) : SoulTrapData :=
  match d.victims with
  | [] => d
  | v :: rest =>
    let d := { d with curVictim := v, victims := rest, processed := d.processed ++ [v] }
    if d.isInventoryMapDirty then resetInventoryData d w else d

/-- `_SoulTrapData::_notify`: emit at most `MAX_NOTIFICATION_COUNT = 1`
notifications per session, and only when notifications are enabled. -/
def notifyRaw (m : Msg) (d : SoulTrapData) (w : World) : SoulTrapData × World :=
  if d.notifyCount < 1 && d.config.allowNotifications then
    ({ d with notifyCount := d.notifyCount + 1 },
     { w with notifications := w.notifications ++ [m] })
  else (d, w)

/-- `_SoulTrapData::_incrementSoulsTrappedStat`: record the statistics event at
most once per session. -/
def incrementSoulsTrappedStat (victimActor : Option Nat) (d : SoulTrapData) (w : World) :
    SoulTrapData × World :=
  if d.isStatIncremented then (d, w)
  else
    ({ d with isStatIncremented := true },
     { w with statEvents := w.statEvents ++ [(d.caster, victimActor)] })

/-- `_SoulTrapData::notifySoulTrapFailure`. -/
def notifySoulTrapFailure (m : Msg) (d : SoulTrapData) (w : World) : SoulTrapData × World :=
  if (getActor w d.caster).isPlayerRef then notifyRaw m d w else (d, w)

/-- `_SoulTrapData::notifySoulTrapSuccess`. -/
def notifySoulTrapSuccess (m : Msg) (v : Victim) (d : SoulTrapData) (w : World) :
    SoulTrapData × World :=
  if (getActor w d.caster).isPlayerRef && v.isPrimarySoul then
    let n := notifyRaw m d w
    incrementSoulsTrappedStat v.actor n.1 n.2
  else (d, w)

/-- `_SearchResult`: the matched gem kind (its group and contained size are
determined by the kind), the owned count, and the entry's data. -/
structure SearchResult where
  gem : GemKind
  itemCount : Nat
  entryExtra : Option Extra
  deriving Repr, DecidableEq

/-- `_findFirstOwnedObjectInList`: first gem kind of the search list the
caster owns in quantity > 0. -/
def findFirstOwnedObjectInList (inv : Inventory) : List GemKind → Option SearchResult
  | [] => none
  | g :: gs =>
    match invLookup inv g with
    | some (n, e) =>
      if 0 < n then some ⟨g, n, e⟩ else findFirstOwnedObjectInList inv gs
    | none => findFirstOwnedObjectInList inv gs

/-- `_SearchResult::soulGemAt`: the member of the matched gem's group holding
`target`. -/
def soulGemAt (r : SearchResult) (target : Nat) : GemKind :=
  { r.gem with contained := target }

/-- `_createExtraDataListFromOriginal`: inherit ownership only. -/
def createExtraDataListFromOriginal : Option Extra → Option Extra
  | some e => if e.owner.isSome then some ⟨e.owner, 0⟩ else none
  | none => none

/-- The extra-soul relocation branch of `_replaceSoulGem`: when relocation of
unaccounted extra souls is enabled and the removed gem's first extra list
holds a non-empty soul, push that soul onto the queue (a dual- or
black-capacity gem holding a grand-level extra soul is assumed to hold a black
soul). -/
def relocExtraVictims (cfg : Config) (toRemove : GemKind) (oldExtra : Option Extra)
    (q : List Victim) : List Victim :=
  if cfg.allowExtraSoulRelocation then
    match oldExtra with
    | some e =>
      if e.soulLevel ≠ 0 then
        let ss := if e.soulLevel = 5 ∧ canHoldBlackSoul toRemove then 6 else e.soulLevel
        vqInsert ⟨none, ss, .displacedSoul⟩ q
      else q
    | none => q
  else q

/-- `_replaceSoulGem`: re-queue an unaccounted extra soul (relocation policy),
inherit ownership (preservation policy), add the new gem, remove the old one,
and mark the snapshot dirty. -/
def replaceSoulGem (toAdd toRemove : GemKind) (entryExtra : Option Extra)
    (d : SoulTrapData) (w : World) : SoulTrapData × World :=
  let oldExtra :=
    if d.config.allowExtraSoulRelocation || d.config.preserveOwnership then entryExtra
    else none
  let newExtra :=
    if d.config.preserveOwnership then createExtraDataListFromOriginal oldExtra else none
  let w1 := setInv w d.caster (invAdd (getInv w d.caster) toAdd newExtra)
  let w2 := setInv w1 d.caster (invRemove (getInv w1 d.caster) toRemove oldExtra)
  ({ d with
      victims := relocExtraVictims d.config toRemove oldExtra d.victims
      isInventoryMapDirty := true }, w2)

/-- `_fillSoulGem`: find the first owned candidate and replace it with its
group's member at `targetContained`. -/
def fillSoulGem (src : List GemKind) (targetContained : Nat)
    (d : SoulTrapData) (w : World) : Bool × St :=
  match findFirstOwnedObjectInList d.inventoryMap src with
  | some r => (true, replaceSoulGem (soulGemAt r targetContained) r.gem r.entryExtra d w)
  | none => (false, d, w)

/-- `_fillBlackSoulGem`: fill an empty pure black soul gem with a black soul. -/
def fillBlackSoulGem (cat : Catalog) (d : SoulTrapData) (w : World) : Bool × St :=
  fillSoulGem (getSoulGemsWith cat 7 0) 6 d w

/-- `_tryReplaceBlackSoulInDualSoulGemWithWhiteSoul`: move a black soul out of
an owned dual gem into an empty pure black gem, then fill the dual gem with
the current (white) victim soul. -/
def tryReplaceBlackSoulInDualSoulGemWithWhiteSoul (cat : Catalog)
    (d : SoulTrapData) (w : World) : Bool × St :=
  match findFirstOwnedObjectInList d.inventoryMap (getSoulGemsWith cat 6 6) with
  | some r =>
    let f := fillBlackSoulGem cat d w
    if f.1 then
      (true, replaceSoulGem (soulGemAt r f.2.1.curVictim.soulSize) r.gem r.entryExtra f.2.1 f.2.2)
    else f
  | none => (false, d, w)

/-- A search loop with early exit: run `step` on each element in order until
one succeeds, threading the state. -/
def tryEach {α : Type} (step : α → St → Bool × St) : List α → St → Bool × St
  | [], st => (false, st)
  | x :: xs, st =>
    match step x st with
    | (true, st) => (true, st)
    | (false, st) => tryEach step xs st

/-- One iteration of `_trapBlackSoul`'s dual-gem loop at a contained size:
fill the dual gem with the black soul; on success re-queue the displaced white
soul when relocation is enabled and the slot was non-empty. -/
def blackDualStep (cat : Catalog) (containedSoulSize : Nat) (st : St) : Bool × St :=
  let f := fillSoulGem (getSoulGemsWith cat 6 containedSoulSize) st.1.curVictim.soulSize st.1 st.2
  if f.1 then
    if f.2.1.config.allowSoulRelocation = true ∧ 0 < containedSoulSize then
      let n := notifySoulTrapSuccess .soulDisplaced f.2.1.curVictim f.2.1 f.2.2
      (true, { n.1 with victims := vqInsert ⟨none, containedSoulSize, .displacedSoul⟩ n.1.victims }, n.2)
    else
      (true, notifySoulTrapSuccess .soulCaptured f.2.1.curVictim f.2.1 f.2.2)
  else f

/-- `_trapBlackSoul`: try an empty pure black gem first, then scan dual gems
by ascending contained soul size (up to, excluding, Black when displacement is
enabled, else only empty). -/
def trapBlackSoul (cat : Catalog) (d : SoulTrapData) (w : World) : Bool × St :=
  let f := fillBlackSoulGem cat d w
  if f.1 then
    (true, notifySoulTrapSuccess .soulCaptured f.2.1.curVictim f.2.1 f.2.2)
  else
    let maxContainedSoulSizeToSearch := if f.2.1.config.allowSoulDisplacement then 6 else 1
    tryEach (blackDualStep cat) (List.range maxContainedSoulSizeToSearch) f.2

/-- One attempt of `_trapFullSoul`'s relocation-enabled (best-fit) search at a
(capacity, contained size) pair: on success re-queue the displaced soul when
the slot was non-empty (relocation is already known enabled). -/
def fullStepReloc (cat : Catalog) (capacity containedSoulSize : Nat) (st : St) : Bool × St :=
  let f := fillSoulGem (getSoulGemsWith cat capacity containedSoulSize) st.1.curVictim.soulSize st.1 st.2
  if f.1 then
    if 0 < containedSoulSize then
      let n := notifySoulTrapSuccess .soulDisplaced f.2.1.curVictim f.2.1 f.2.2
      (true, { n.1 with victims := vqInsert ⟨none, containedSoulSize, .displacedSoul⟩ n.1.victims }, n.2)
    else
      (true, notifySoulTrapSuccess .soulCaptured f.2.1.curVictim f.2.1 f.2.2)
  else f

/-- One attempt of `_trapFullSoul`'s relocation-disabled (minimize-loss)
search: displaced contents are destroyed, never re-queued. -/
def fullStepNoReloc (cat : Catalog) (capacity containedSoulSize : Nat) (st : St) : Bool × St :=
  let f := fillSoulGem (getSoulGemsWith cat capacity containedSoulSize) st.1.curVictim.soulSize st.1 st.2
  if f.1 then
    if 0 < containedSoulSize then
      (true, notifySoulTrapSuccess .soulDisplaced f.2.1.curVictim f.2.1 f.2.2)
    else
      (true, notifySoulTrapSuccess .soulCaptured f.2.1.curVictim f.2.1 f.2.2)
  else f

/-- The tail of `_trapFullSoul`'s relocation-enabled branch: after the white
search is exhausted, evict a black soul from a dual gem when displacement is
enabled and the soul qualifies (partial filling allowed, or a Grand soul). -/
def fullSoulFallback (cat : Catalog) (st : St) : Bool × St :=
  if st.1.config.allowSoulDisplacement
      && (st.1.config.allowPartiallyFilling || st.1.curVictim.soulSize == 5) then
    let r := tryReplaceBlackSoulInDualSoulGemWithWhiteSoul cat st.1 st.2
    if r.1 then
      (true, notifySoulTrapSuccess .soulDisplaced r.2.1.curVictim r.2.1 r.2.2)
    else r
  else (false, st)

/-- `_trapFullSoul`.  Capacity tiers range from the soul's own tier up to
`LastWhite = Dual (6)` when partial filling is allowed (else only the exact
tier); contained sizes range from empty up to, excluding, the victim's soul
size when displacement is allowed (else only empty).  With relocation the
outer loop is over capacities (best fit) and a failed search falls back to
dual-gem black-soul eviction; without it the outer loop is over contained
sizes (minimize loss). -/
def trapFullSoul (cat : Catalog) (d : SoulTrapData) (w : World) : Bool × St :=
  let s := d.curVictim.soulSize
  let maxSoulCapacityToSearch :=
    if d.config.allowPartiallyFilling then 6 else toSoulGemCapacity s
  let maxContainedSoulSizeToSearch :=
    if d.config.allowSoulDisplacement then s else 1
  let caps := List.range' (toSoulGemCapacity s) (maxSoulCapacityToSearch + 1 - toSoulGemCapacity s)
  let conts := List.range maxContainedSoulSizeToSearch
  if d.config.allowSoulRelocation then
    let r := tryEach (fun c => tryEach (fun e => fullStepReloc cat c e) conts) caps (d, w)
    if r.1 then r else fullSoulFallback cat r.2
  else
    tryEach (fun e => tryEach (fun c => fullStepNoReloc cat c e) caps) conts (d, w)

/-- One attempt of `_trapShrunkSoul` at a (capacity, contained size) pair:
fill with the soul shrunk to exactly that tier's size; re-queue the displaced
occupant only when relocation is enabled and the slot was non-empty. -/
def shrunkStep (cat : Catalog) (capacity containedSoulSize : Nat) (st : St) : Bool × St :=
  let f := fillSoulGem (getSoulGemsWith cat capacity containedSoulSize) (toSoulSize capacity) st.1 st.2
  if f.1 then
    let n := notifySoulTrapSuccess .soulShrunk f.2.1.curVictim f.2.1 f.2.2
    if n.1.config.allowSoulRelocation = true ∧ 0 < containedSoulSize then
      (true, { n.1 with victims := vqInsert ⟨none, containedSoulSize, .displacedSoul⟩ n.1.victims }, n.2)
    else (true, n)
  else f

/-- `_trapShrunkSoul`: capacity tiers descending from one below the soul's
tier down to `First = Petty (1)`; contained sizes ascending, bounded by each
tier's own capacity when displacement is enabled, else only empty. -/
def trapShrunkSoul (cat : Catalog) (d : SoulTrapData) (w : World) : Bool × St :=
  tryEach
    (fun c => tryEach (fun e => shrunkStep cat c e)
      (List.range (if d.config.allowSoulDisplacement then toSoulSize c else 1)))
    ((List.range' 1 (toSoulGemCapacity d.curVictim.soulSize - 1)).reverse)
    (d, w)

/-- One attempt of `_trapSplitSoul` at a contained size of the soul's own
capacity tier. -/
def splitStep (cat : Catalog) (containedSoulSize : Nat) (st : St) : Bool × St :=
  let f := fillSoulGem
    (getSoulGemsWith cat (toSoulGemCapacity st.1.curVictim.soulSize) containedSoulSize)
    st.1.curVictim.soulSize st.1 st.2
  if f.1 then
    let n := notifySoulTrapSuccess .soulSplit f.2.1.curVictim f.2.1 f.2.2
    if n.1.config.allowSoulRelocation = true ∧ 0 < containedSoulSize then
      (true, { n.1 with victims := vqInsert ⟨none, containedSoulSize, .displacedSoul⟩ n.1.victims }, n.2)
    else (true, n)
  else f

/-- `_trapSplitSoul`: place the soul at its natural tier only, contained sizes
ascending up to, excluding, the soul size when displacement is enabled, else
only empty. -/
def trapSplitSoul (cat : Catalog) (d : SoulTrapData) (w : World) : Bool × St :=
  tryEach (splitStep cat)
    (List.range (if d.config.allowSoulDisplacement then d.curVictim.soulSize else 1))
    (d, w)

/-- `_splitSoul`: decompose a soul into two halves and enqueue both
(Grand → Greater + Common, Greater → Common + Common, Common → 2 × Lesser,
Lesser → 2 × Petty); Petty and Black souls are not split and enqueue
nothing. -/
def splitSoul (v : Victim) (q : List Victim) : List Victim :=
  match v.soulSize with
  | 5 => vqInsert ⟨v.actor, 3, .splitSoul⟩ (vqInsert ⟨v.actor, 4, .splitSoul⟩ q)
  | 4 => vqInsert ⟨v.actor, 3, .splitSoul⟩ (vqInsert ⟨v.actor, 3, .splitSoul⟩ q)
  | 3 => vqInsert ⟨v.actor, 2, .splitSoul⟩ (vqInsert ⟨v.actor, 2, .splitSoul⟩ q)
  | 2 => vqInsert ⟨v.actor, 1, .splitSoul⟩ (vqInsert ⟨v.actor, 1, .splitSoul⟩ q)
  | _ => q

/-- The driver's `_splitSoul(d.victim(), d.victims())` statement: split the
current victim into the session's queue. -/
def pushSplitSouls (d : SoulTrapData) : SoulTrapData :=
  { d with victims := splitSoul d.curVictim d.victims }

/-- The driver loop of `trapSoul` (fuel-indexed; the final `Bool` reports
whether the loop reached its own exit, i.e. did not run out of fuel). -/
def runLoop (cat : Catalog) : Nat → Bool → SoulTrapData → World → Bool × SoulTrapData × World × Bool
  | 0, succ, d, w => (succ, d, w, false)
  | fuel + 1, succ, d, w =>
    if d.victims.isEmpty then (succ, d, w, true)
    else
      let d := updateLoopVariables d w
      if d.casterInventoryStatus ≠ InventoryStatus.hasSoulGemsToFill then (succ, d, w, true)
      else if d.curVictim.soulSize = 6 then
        let r := trapBlackSoul cat d w
        if r.1 then runLoop cat fuel true r.2.1 r.2.2
        else runLoop cat fuel succ r.2.1 r.2.2
      else if d.curVictim.isSplitSoul then
        let r := trapSplitSoul cat d w
        if r.1 then runLoop cat fuel true r.2.1 r.2.2
        else runLoop cat fuel succ (pushSplitSouls r.2.1) r.2.2
      else
        let r := trapFullSoul cat d w
        if r.1 then runLoop cat fuel true r.2.1 r.2.2
        else
          match r.2.1.config.technique with
          | .shrink =>
            let r2 := trapShrunkSoul cat r.2.1 r.2.2
            if r2.1 then runLoop cat fuel true r2.2.1 r2.2.2
            else runLoop cat fuel succ r2.2.1 r2.2.2
          | .split => runLoop cat fuel succ (pushSplitSouls r.2.1) r.2.2
          | .none => runLoop cat fuel succ r.2.1 r.2.2

/-- Checks performed by the entry point, in the order they are evaluated.
`lockAcquire` marks taking the global soul-trap mutex, `sessionRun` the start
of queue processing. -/
inductive TraceEv where
  | chkCasterNull
  | chkVictimNull
  | chkCasterDead
  | chkVictimAlive
  | lockAcquire
  | chkDrained
  | sessionRun
  deriving Repr, DecidableEq

/-- Result of the entry point: the returned boolean, the final world, the
sequence of precondition checks performed, every victim popped from the queue,
and whether the driver loop completed (fuel did not run out). -/
structure TrapResult where
  success : Bool
  world : World
  trace : List TraceEv
  processed : List Victim
  completed : Bool
  deriving Repr, DecidableEq

/-- The tail of `trapSoul` after the driver loop: flag the victim on success
(when it still has an AI process), otherwise emit the failure notification
selected by the caster's inventory status. -/
def trapSoulPost (v : Nat) (succ : Bool) (d : SoulTrapData) (w : World) : World :=
  if succ then
    if (getActor w v).hasProcess then setTrapped w v else w
  else
    (match d.casterInventoryStatus with
     | .allSoulGemsFilled => notifySoulTrapFailure .allSoulGemsFilled d w
     | .noSoulGemsOwned => notifySoulTrapFailure .noSoulGemsOwned d w
     | .hasSoulGemsToFill =>
       if d.config.technique ≠ Technique.none then
         notifySoulTrapFailure .noSuitableSoulGem d w
       else notifySoulTrapFailure .noSoulGemLargeEnough d w).2

/-- `trapSoul`, the entry point: precondition checks, the global lock, session
construction (with queue seeded by the victim's remaining soul), the driver
loop, then victim flagging on success or a failure notification. -/
def trapSoul (cat : Catalog) (cfg : Config) (fuel : Nat)
    (caster victim : Option Nat) (w : World) : TrapResult :=
  match caster with
  | none => ⟨false, w, [.chkCasterNull], [], true⟩
  | some c =>
    match victim with
    | none => ⟨false, w, [.chkCasterNull, .chkVictimNull], [], true⟩
    | some v =>
      if (getActor w c).isDead then
        ⟨false, w, [.chkCasterNull, .chkVictimNull, .chkCasterDead], [], true⟩
      else if !(getActor w v).isDead then
        ⟨false, w, [.chkCasterNull, .chkVictimNull, .chkCasterDead, .chkVictimAlive], [], true⟩
      else if (getActor w v).soulLevel = 0 then
        ⟨false, w,
          [.chkCasterNull, .chkVictimNull, .chkCasterDead, .chkVictimAlive,
           .lockAcquire, .chkDrained], [], true⟩
      else
        let d := mkSoulTrapData cfg w c
        let d2 := { d with victims := vqInsert ⟨some v, (getActor w v).soulLevel, .primarySoul⟩ d.victims }
        let r := runLoop cat fuel false d2 w
        ⟨r.1, trapSoulPost v r.1 r.2.1 r.2.2.1,
          [.chkCasterNull, .chkVictimNull, .chkCasterDead, .chkVictimAlive,
           .lockAcquire, .chkDrained, .sessionRun], r.2.1.processed, r.2.2.2⟩

/-! ## Search-order abstractions

`ascPairs lo n m` is the (capacity, contained-size) attempt sequence of a
doubly-nested ascending search; `shrunkPairs` the attempt sequence of the
shrinking search (capacity descending, per-tier contained-size bound). -/

def ascPairs (lo n m : Nat) : List (Nat × Nat) :=
  (List.range' lo n).flatMap (fun c => (List.range m).map (fun e => (c, e)))

def shrunkPairs (disp : Bool) (cap0 : Nat) : List (Nat × Nat) :=
  ((List.range' 1 (cap0 - 1)).reverse).flatMap
    (fun c => (List.range (if disp then toSoulSize c else 1)).map (fun e => (c, e)))

/-- Strict lexicographic order on (capacity, contained size): smaller capacity
first, then smaller contained size. -/
def lexLt (p q : Nat × Nat) : Prop :=
  p.1 < q.1 ∨ (p.1 = q.1 ∧ p.2 < q.2)

/-- Capacity descending, contained size ascending within one capacity. -/
def lexDescAsc (p q : Nat × Nat) : Prop :=
  q.1 < p.1 ∨ (p.1 = q.1 ∧ p.2 < q.2)

theorem tryEach_append {α : Type} (step : α → St → Bool × St) (xs ys : List α) (st : St) :
    tryEach step (xs ++ ys) st =
      match tryEach step xs st with
      | (true, st1) => (true, st1)
      | (false, st1) => tryEach step ys st1 := by
  induction xs generalizing st with
  | nil => rfl
  | cons x xs ih =>
    simp only [List.cons_append, tryEach]
    rcases hx : step x st with ⟨b, st1⟩
    cases b
    · exact ih st1
    · rfl

theorem tryEach_map {α β : Type} (step : β → St → Bool × St) (f : α → β) (l : List α) (st : St) :
    tryEach step (l.map f) st = tryEach (fun a => step (f a)) l st := by
  induction l generalizing st with
  | nil => rfl
  | cons x xs ih =>
    simp only [List.map_cons, tryEach]
    rcases hx : step (f x) st with ⟨b, st1⟩
    cases b
    · exact ih st1
    · rfl

/-- Flattening a nested search into the search over its attempt pairs. -/
theorem tryEach_flatMap (g : Nat → Nat → St → Bool × St) (h : Nat → List Nat)
    (cs : List Nat) (st : St) :
    tryEach (fun c => tryEach (g c) (h c)) cs st =
      tryEach (fun p => g p.1 p.2) (cs.flatMap (fun c => (h c).map (fun e => (c, e)))) st := by
  induction cs generalizing st with
  | nil => rfl
  | cons c cs ih =>
    rw [List.flatMap_cons, tryEach_append, tryEach_map]
    show (match tryEach (g c) (h c) st with
          | (true, st1) => (true, st1)
          | (false, st1) => tryEach (fun c => tryEach (g c) (h c)) cs st1) = _
    rcases hx : tryEach (g c) (h c) st with ⟨b, st1⟩
    cases b
    · exact ih st1
    · rfl

/-- A search whose steps do not change the state on failure leaves the state
unchanged when it fails as a whole. -/
theorem tryEach_of_fail_id {α : Type} (step : α → St → Bool × St)
    (hstep : ∀ x st, (step x st).1 = false → (step x st).2 = st) (l : List α) (st : St)
    (hfail : (tryEach step l st).1 = false) :
    (tryEach step l st).2 = st := by
  induction l generalizing st with
  | nil => rfl
  | cons x xs ih =>
    rcases hx : step x st with ⟨b, st1⟩
    cases b
    · have hst : st1 = st := by
        have := hstep x st
        rw [hx] at this
        exact this rfl
      have hun : tryEach step (x :: xs) st = tryEach step xs st1 := by
        simp only [tryEach, hx]
      rw [hun] at hfail ⊢
      rw [hst] at hfail ⊢
      exact ih st hfail
    · have hun : tryEach step (x :: xs) st = (true, st1) := by
        simp only [tryEach, hx]
      rw [hun] at hfail
      simp at hfail

/-- Attempt pairs of a nested range search are ordered: the outer order on the
first components, ascending contained size within one first component. -/
theorem pairwise_flatMap_ranges (r : Nat → Nat → Prop) (cs : List Nat) (m : Nat → Nat)
    (hc : cs.Pairwise r) :
    (cs.flatMap (fun c => (List.range (m c)).map (fun e => (c, e)))).Pairwise
      (fun p q => r p.1 q.1 ∨ (p.1 = q.1 ∧ p.2 < q.2)) := by
  induction cs with
  | nil => simp
  | cons c cs ih =>
    rw [List.flatMap_cons, List.pairwise_append]
    refine ⟨?_, ih hc.of_cons, ?_⟩
    · rw [List.pairwise_map]
      exact (List.pairwise_lt_range (m c)).imp (fun hab => Or.inr ⟨rfl, hab⟩)
    · intro a ha b hb
      rcases List.mem_map.mp ha with ⟨e, _, rfl⟩
      rcases List.mem_flatMap.mp hb with ⟨c2, hc2, hb2⟩
      rcases List.mem_map.mp hb2 with ⟨e2, _, rfl⟩
      exact Or.inl (List.rel_of_pairwise_cons hc hc2)

theorem ascPairs_pairwise (lo n m : Nat) : (ascPairs lo n m).Pairwise lexLt :=
  pairwise_flatMap_ranges (· < ·) (List.range' lo n) (fun _ => m)
    (List.pairwise_lt_range' lo n)

theorem shrunkPairs_pairwise (disp : Bool) (cap0 : Nat) :
    (shrunkPairs disp cap0).Pairwise lexDescAsc :=
  pairwise_flatMap_ranges (fun a b => b < a) ((List.range' 1 (cap0 - 1)).reverse)
    (fun c => if disp then toSoulSize c else 1)
    (List.pairwise_reverse.mpr (List.pairwise_lt_range' 1 (cap0 - 1)))

theorem mem_ascPairs {lo n m : Nat} {p : Nat × Nat} :
    p ∈ ascPairs lo n m ↔ (lo ≤ p.1 ∧ p.1 < lo + n ∧ p.2 < m) := by
  rcases p with ⟨c, e⟩
  simp only [ascPairs, List.mem_flatMap, List.mem_map, List.mem_range, List.mem_range'_1,
    Prod.mk.injEq]
  constructor
  · rintro ⟨a, ⟨h1, h2⟩, e2, he2, rfl, rfl⟩
    exact ⟨h1, h2, he2⟩
  · rintro ⟨h1, h2, h3⟩
    exact ⟨c, ⟨h1, h2⟩, e, h3, rfl, rfl⟩

theorem mem_shrunkPairs {disp : Bool} {cap0 : Nat} {p : Nat × Nat} :
    p ∈ shrunkPairs disp cap0 ↔
      (1 ≤ p.1 ∧ p.1 < cap0 ∧ p.2 < (if disp then toSoulSize p.1 else 1)) := by
  rcases p with ⟨c, e⟩
  simp only [shrunkPairs, List.mem_flatMap, List.mem_reverse, List.mem_map, List.mem_range,
    List.mem_range'_1, Prod.mk.injEq]
  constructor
  · rintro ⟨a, ⟨h1, h2⟩, e2, he2, rfl, rfl⟩
    exact ⟨h1, by omega, he2⟩
  · rintro ⟨h1, h2, h3⟩
    exact ⟨c, ⟨h1, by omega⟩, e, h3, rfl, rfl⟩

/-! ## First-owned search and inventory lemmas -/

theorem invCount_eq_zero_of_lookup_none {inv : Inventory} {g : GemKind}
    (h : invLookup inv g = none) : invCount inv g = 0 := by
  simp [invCount, h]

theorem findFirstOwned_eq_none_iff (inv : Inventory) (l : List GemKind) :
    findFirstOwnedObjectInList inv l = none ↔ ∀ g ∈ l, invCount inv g = 0 := by
  induction l with
  | nil => simp [findFirstOwnedObjectInList]
  | cons g gs ih =>
    rcases hg : invLookup inv g with _ | ⟨n, e⟩
    · simp only [findFirstOwnedObjectInList, hg, List.mem_cons]
      constructor
      · rintro h x (rfl | hx)
        · exact invCount_eq_zero_of_lookup_none hg
        · exact (ih.mp h) x hx
      · intro h
        exact ih.mpr (fun x hx => h x (Or.inr hx))
    · by_cases hn : 0 < n
      · simp only [findFirstOwnedObjectInList, hg, if_pos hn]
        constructor
        · intro h
          exact absurd h (by simp)
        · intro h
          have h2 : invCount inv g = 0 := h g (List.mem_cons_self g gs)
          simp only [invCount, hg] at h2
          omega
      · simp only [findFirstOwnedObjectInList, hg, if_neg hn, List.mem_cons]
        constructor
        · rintro h x (rfl | hx)
          · simp only [invCount, hg]
            omega
          · exact (ih.mp h) x hx
        · intro h
          exact ih.mpr (fun x hx => h x (Or.inr hx))

/-- The search result is the first owned kind of the list: everything before
it is unowned, and the result itself is owned with the entry's data. -/
theorem findFirstOwned_first {inv : Inventory} {l : List GemKind} {r : SearchResult}
    (h : findFirstOwnedObjectInList inv l = some r) :
    ∃ i, ∃ hi : i < l.length,
      l.get ⟨i, hi⟩ = r.gem ∧
      invLookup inv r.gem = some (r.itemCount, r.entryExtra) ∧ 0 < r.itemCount ∧
      ∀ j, ∀ hj : j < l.length, j < i → invCount inv (l.get ⟨j, hj⟩) = 0 := by
  induction l with
  | nil => exact absurd h (by simp [findFirstOwnedObjectInList])
  | cons g gs ih =>
    rcases hg : invLookup inv g with _ | ⟨n, e⟩
    · simp only [findFirstOwnedObjectInList, hg] at h
      rcases ih h with ⟨i, hi, h1, h2, h3, h4⟩
      refine ⟨i + 1, by simpa using hi, by simpa using h1, h2, h3, ?_⟩
      intro j hj hji
      match j with
      | 0 => exact invCount_eq_zero_of_lookup_none hg
      | j + 1 =>
        have hj2 : j < gs.length := by simpa using hj
        have := h4 j hj2 (by omega)
        simpa using this
    · by_cases hn : 0 < n
      · simp only [findFirstOwnedObjectInList, hg, if_pos hn] at h
        have hr : SearchResult.mk g n e = r := Option.some.inj h
        subst hr
        refine ⟨0, ?_, rfl, hg, hn, ?_⟩
        · simp
        · intro j hj hj0
          exact absurd hj0 (Nat.not_lt_zero j)
      · simp only [findFirstOwnedObjectInList, hg, if_neg hn] at h
        rcases ih h with ⟨i, hi, h1, h2, h3, h4⟩
        refine ⟨i + 1, by simpa using hi, by simpa using h1, h2, h3, ?_⟩
        intro j hj hji
        match j with
        | 0 =>
          show invCount inv g = 0
          simp only [invCount, hg]
          omega
        | j + 1 =>
          have hj2 : j < gs.length := by simpa using hj
          have := h4 j hj2 (by omega)
          simpa using this

theorem findFirstOwned_mem {inv : Inventory} {l : List GemKind} {r : SearchResult}
    (h : findFirstOwnedObjectInList inv l = some r) : r.gem ∈ l := by
  rcases findFirstOwned_first h with ⟨i, hi, h1, _⟩
  rw [← h1]
  exact List.get_mem l i hi

theorem mem_getSoulGemsWith {cat : Catalog} {c e : Nat} {g : GemKind}
    (h : g ∈ getSoulGemsWith cat c e) : g.capacity = c ∧ g.contained = e := by
  have := List.of_mem_filter h
  simpa using this

theorem getAssoc_setAssoc_same {β : Type} (l : List (Nat × β)) (a : Nat) (x : β) :
    getAssoc (setAssoc l a x) a = some x := by
  induction l with
  | nil => simp [setAssoc, getAssoc]
  | cons p rest ih =>
    rcases p with ⟨b, y⟩
    by_cases hb : b = a
    · simp [setAssoc, getAssoc, hb]
    · simp only [setAssoc, getAssoc, if_neg hb]
      exact ih

theorem getAssoc_setAssoc_ne {β : Type} (l : List (Nat × β)) {a c : Nat} (x : β)
    (h : a ≠ c) : getAssoc (setAssoc l c x) a = getAssoc l a := by
  induction l with
  | nil => simp [setAssoc, getAssoc, Ne.symm h]
  | cons p rest ih =>
    rcases p with ⟨b, y⟩
    by_cases hb : b = c
    · subst hb
      simp [setAssoc, getAssoc, Ne.symm h]
    · simp only [setAssoc, getAssoc, if_neg hb]
      by_cases hba : b = a
      · simp [hba]
      · simp only [if_neg hba]
        exact ih

theorem getInv_setInv_same (w : World) (a : Nat) (inv : Inventory) :
    getInv (setInv w a inv) a = inv := by
  simp [getInv, setInv, getAssoc_setAssoc_same]

theorem getInv_setInv_ne (w : World) {a c : Nat} (inv : Inventory) (h : a ≠ c) :
    getInv (setInv w c inv) a = getInv w a := by
  simp [getInv, setInv, getAssoc_setAssoc_ne _ _ h]

theorem invCount_invAdd_same (inv : Inventory) (k : GemKind) (e : Option Extra) :
    invCount (invAdd inv k e) k = invCount inv k + 1 := by
  induction inv with
  | nil => simp [invAdd, invCount, invLookup]
  | cons s rest ih =>
    by_cases hs : s.gem = k
    · simp [invAdd, if_pos hs, invCount, invLookup, hs]
    · simp only [invAdd, if_neg hs]
      simp only [invCount, invLookup, if_neg hs] at ih ⊢
      exact ih

theorem invCount_invRemove_ne (inv : Inventory) {k k2 : GemKind} (e : Option Extra)
    (h : k2 ≠ k) : invCount (invRemove inv k e) k2 = invCount inv k2 := by
  induction inv with
  | nil => simp [invRemove]
  | cons s rest ih =>
    by_cases hs : s.gem = k
    · by_cases hc : s.count ≤ 1
      · simp only [invRemove, if_pos hs, if_pos hc]
        have hne : s.gem ≠ k2 := by rw [hs]; exact fun hh => h hh.symm
        simp [invCount, invLookup, if_neg hne]
      · simp only [invRemove, if_pos hs, if_neg hc]
        have hne : s.gem ≠ k2 := by rw [hs]; exact fun hh => h hh.symm
        simp [invCount, invLookup, if_neg hne]
    · simp only [invRemove, if_neg hs]
      by_cases hs2 : s.gem = k2
      · simp [invCount, invLookup, if_pos hs2]
      · simp only [invCount, invLookup, if_neg hs2] at ih ⊢
        exact ih

/-! ## The session-step relation

`StepRel s t` collects the facts preserved by every operation within a
session: the session caster never changes, other actors' inventories are
untouched, the notification sink grows only as the `notifyCount` latch does,
and the statistics sink grows only as the `isStatIncremented` latch does. -/

def statN (d : SoulTrapData) : Nat :=
  if d.isStatIncremented then 1 else 0

theorem statN_le_one (d : SoulTrapData) : statN d ≤ 1 := by
  unfold statN
  split <;> omega

def StepRel (s t : St) : Prop :=
  t.1.caster = s.1.caster ∧
  (∀ a, a ≠ s.1.caster → getInv t.2 a = getInv s.2 a) ∧
  t.2.notifications.length + s.1.notifyCount ≤ s.2.notifications.length + t.1.notifyCount ∧
  (t.1.notifyCount ≤ 1 ∨ t.1.notifyCount ≤ s.1.notifyCount) ∧
  t.2.statEvents.length + statN s.1 ≤ s.2.statEvents.length + statN t.1

theorem StepRel.rfl (s : St) : StepRel s s := by
  refine ⟨Eq.refl _, fun _ _ => Eq.refl _, ?_, ?_, ?_⟩ <;> omega

theorem StepRel.trans {s t u : St} (h1 : StepRel s t) (h2 : StepRel t u) : StepRel s u := by
  obtain ⟨a1, b1, c1, d1, e1⟩ := h1
  obtain ⟨a2, b2, c2, d2, e2⟩ := h2
  refine ⟨a2.trans a1, ?_, by omega, by omega, by omega⟩
  intro a ha
  have ha2 : a ≠ t.1.caster := by rw [a1]; exact ha
  rw [b2 a ha2, b1 a ha]

/-- A data-only change that keeps the caster and both latches is a step. -/
theorem StepRel.data {d d' : SoulTrapData} (w : World)
    (hc : d'.caster = d.caster) (hn : d'.notifyCount = d.notifyCount)
    (hs : d'.isStatIncremented = d.isStatIncremented) : StepRel (d, w) (d', w) := by
  refine ⟨hc, fun _ _ => Eq.refl _, ?_, ?_, ?_⟩
  · simp [hn]
  · right
    simp [hn]
  · simp [statN, hs]

theorem stepRel_notifyRaw (m : Msg) (d : SoulTrapData) (w : World) :
    StepRel (d, w) (notifyRaw m d w) := by
  unfold notifyRaw
  split
  · rename_i h
    simp only [Bool.and_eq_true, decide_eq_true_eq] at h
    refine ⟨Eq.refl _, fun _ _ => Eq.refl _, ?_, ?_, ?_⟩
    · simp
      omega
    · left
      simp
      omega
    · simp [statN]
  · exact StepRel.rfl _

theorem stepRel_incrementStat (va : Option Nat) (d : SoulTrapData) (w : World) :
    StepRel (d, w) (incrementSoulsTrappedStat va d w) := by
  unfold incrementSoulsTrappedStat
  split
  · exact StepRel.rfl _
  · rename_i h
    refine ⟨Eq.refl _, fun _ _ => Eq.refl _, ?_, ?_, ?_⟩
    · simp
    · right
      simp
    · simp [statN, h]

theorem stepRel_notifySoulTrapFailure (m : Msg) (d : SoulTrapData) (w : World) :
    StepRel (d, w) (notifySoulTrapFailure m d w) := by
  unfold notifySoulTrapFailure
  split
  · exact stepRel_notifyRaw m d w
  · exact StepRel.rfl _

theorem stepRel_notifySoulTrapSuccess (m : Msg) (v : Victim) (d : SoulTrapData) (w : World) :
    StepRel (d, w) (notifySoulTrapSuccess m v d w) := by
  unfold notifySoulTrapSuccess
  split
  · exact (stepRel_notifyRaw m d w).trans
      (stepRel_incrementStat v.actor (notifyRaw m d w).1 (notifyRaw m d w).2)
  · exact StepRel.rfl _

theorem stepRel_replaceSoulGem (toAdd toRemove : GemKind) (eE : Option Extra)
    (d : SoulTrapData) (w : World) :
    StepRel (d, w) (replaceSoulGem toAdd toRemove eE d w) := by
  unfold replaceSoulGem
  refine ⟨Eq.refl _, ?_, ?_, ?_, ?_⟩
  · intro a ha
    rw [getInv_setInv_ne _ _ ha, getInv_setInv_ne _ _ ha]
  · simp [setInv]
  · simp
  · simp [setInv, statN]

theorem stepRel_fillSoulGem (src : List GemKind) (t : Nat) (d : SoulTrapData) (w : World) :
    StepRel (d, w) (fillSoulGem src t d w).2 := by
  rcases h : findFirstOwnedObjectInList d.inventoryMap src with _ | r
  · simp only [fillSoulGem, h]
    exact StepRel.rfl _
  · simp only [fillSoulGem, h]
    exact stepRel_replaceSoulGem _ _ _ d w

theorem stepRel_fillBlackSoulGem (cat : Catalog) (d : SoulTrapData) (w : World) :
    StepRel (d, w) (fillBlackSoulGem cat d w).2 :=
  stepRel_fillSoulGem _ _ d w

theorem stepRel_tryReplaceBlack (cat : Catalog) (d : SoulTrapData) (w : World) :
    StepRel (d, w) (tryReplaceBlackSoulInDualSoulGemWithWhiteSoul cat d w).2 := by
  rcases h : findFirstOwnedObjectInList d.inventoryMap (getSoulGemsWith cat 6 6) with _ | r
  · simp only [tryReplaceBlackSoulInDualSoulGemWithWhiteSoul, h]
    exact StepRel.rfl _
  · simp only [tryReplaceBlackSoulInDualSoulGemWithWhiteSoul, h]
    have h1 := stepRel_fillBlackSoulGem cat d w
    split
    · exact h1.trans (stepRel_replaceSoulGem _ _ _ _ _)
    · exact h1

/-- A search preserves `StepRel` when each of its steps does. -/
theorem stepRel_tryEach {α : Type} (step : α → St → Bool × St)
    (hstep : ∀ x st, StepRel st (step x st).2) (l : List α) (st : St) :
    StepRel st (tryEach step l st).2 := by
  induction l generalizing st with
  | nil => exact StepRel.rfl _
  | cons x xs ih =>
    rcases hx : step x st with ⟨b, st1⟩
    have h1 : StepRel st st1 := by
      have := hstep x st
      rw [hx] at this
      exact this
    cases b
    · have hun : tryEach step (x :: xs) st = tryEach step xs st1 := by
        simp only [tryEach, hx]
      rw [hun]
      exact h1.trans (ih st1)
    · have hun : tryEach step (x :: xs) st = (true, st1) := by
        simp only [tryEach, hx]
      rw [hun]
      exact h1

theorem stepRel_blackDualStep (cat : Catalog) (cs : Nat) (st : St) :
    StepRel st (blackDualStep cat cs st).2 := by
  simp only [blackDualStep]
  have h1 : StepRel st (fillSoulGem (getSoulGemsWith cat 6 cs) st.1.curVictim.soulSize st.1 st.2).2 :=
    stepRel_fillSoulGem _ _ _ _
  split
  · split
    · exact (h1.trans (stepRel_notifySoulTrapSuccess Msg.soulDisplaced
        (fillSoulGem (getSoulGemsWith cat 6 cs) st.1.curVictim.soulSize st.1 st.2).2.1.curVictim
        (fillSoulGem (getSoulGemsWith cat 6 cs) st.1.curVictim.soulSize st.1 st.2).2.1
        (fillSoulGem (getSoulGemsWith cat 6 cs) st.1.curVictim.soulSize st.1 st.2).2.2)).trans
        (StepRel.data _ (Eq.refl _) (Eq.refl _) (Eq.refl _))
    · exact h1.trans (stepRel_notifySoulTrapSuccess Msg.soulCaptured
        (fillSoulGem (getSoulGemsWith cat 6 cs) st.1.curVictim.soulSize st.1 st.2).2.1.curVictim
        (fillSoulGem (getSoulGemsWith cat 6 cs) st.1.curVictim.soulSize st.1 st.2).2.1
        (fillSoulGem (getSoulGemsWith cat 6 cs) st.1.curVictim.soulSize st.1 st.2).2.2)
  · exact h1

theorem stepRel_trapBlackSoul (cat : Catalog) (d : SoulTrapData) (w : World) :
    StepRel (d, w) (trapBlackSoul cat d w).2 := by
  simp only [trapBlackSoul]
  have h1 : StepRel (d, w) (fillBlackSoulGem cat d w).2 := stepRel_fillBlackSoulGem cat d w
  split
  · exact h1.trans (stepRel_notifySoulTrapSuccess Msg.soulCaptured
      (fillBlackSoulGem cat d w).2.1.curVictim
      (fillBlackSoulGem cat d w).2.1 (fillBlackSoulGem cat d w).2.2)
  · exact h1.trans (stepRel_tryEach _ (stepRel_blackDualStep cat) _ _)

theorem stepRel_fullStepReloc (cat : Catalog) (c e : Nat) (st : St) :
    StepRel st (fullStepReloc cat c e st).2 := by
  simp only [fullStepReloc]
  have h1 : StepRel st (fillSoulGem (getSoulGemsWith cat c e) st.1.curVictim.soulSize st.1 st.2).2 :=
    stepRel_fillSoulGem _ _ _ _
  split
  · split
    · exact (h1.trans (stepRel_notifySoulTrapSuccess Msg.soulDisplaced
        (fillSoulGem (getSoulGemsWith cat c e) st.1.curVictim.soulSize st.1 st.2).2.1.curVictim
        (fillSoulGem (getSoulGemsWith cat c e) st.1.curVictim.soulSize st.1 st.2).2.1
        (fillSoulGem (getSoulGemsWith cat c e) st.1.curVictim.soulSize st.1 st.2).2.2)).trans
        (StepRel.data _ (Eq.refl _) (Eq.refl _) (Eq.refl _))
    · exact h1.trans (stepRel_notifySoulTrapSuccess Msg.soulCaptured
        (fillSoulGem (getSoulGemsWith cat c e) st.1.curVictim.soulSize st.1 st.2).2.1.curVictim
        (fillSoulGem (getSoulGemsWith cat c e) st.1.curVictim.soulSize st.1 st.2).2.1
        (fillSoulGem (getSoulGemsWith cat c e) st.1.curVictim.soulSize st.1 st.2).2.2)
  · exact h1

theorem stepRel_fullStepNoReloc (cat : Catalog) (c e : Nat) (st : St) :
    StepRel st (fullStepNoReloc cat c e st).2 := by
  simp only [fullStepNoReloc]
  have h1 : StepRel st (fillSoulGem (getSoulGemsWith cat c e) st.1.curVictim.soulSize st.1 st.2).2 :=
    stepRel_fillSoulGem _ _ _ _
  split
  · split
    · exact h1.trans (stepRel_notifySoulTrapSuccess Msg.soulDisplaced
        (fillSoulGem (getSoulGemsWith cat c e) st.1.curVictim.soulSize st.1 st.2).2.1.curVictim
        (fillSoulGem (getSoulGemsWith cat c e) st.1.curVictim.soulSize st.1 st.2).2.1
        (fillSoulGem (getSoulGemsWith cat c e) st.1.curVictim.soulSize st.1 st.2).2.2)
    · exact h1.trans (stepRel_notifySoulTrapSuccess Msg.soulCaptured
        (fillSoulGem (getSoulGemsWith cat c e) st.1.curVictim.soulSize st.1 st.2).2.1.curVictim
        (fillSoulGem (getSoulGemsWith cat c e) st.1.curVictim.soulSize st.1 st.2).2.1
        (fillSoulGem (getSoulGemsWith cat c e) st.1.curVictim.soulSize st.1 st.2).2.2)
  · exact h1

theorem stepRel_fullSoulFallback (cat : Catalog) (st : St) :
    StepRel st (fullSoulFallback cat st).2 := by
  simp only [fullSoulFallback]
  have h1 : StepRel st (tryReplaceBlackSoulInDualSoulGemWithWhiteSoul cat st.1 st.2).2 :=
    stepRel_tryReplaceBlack cat st.1 st.2
  split
  · split
    · exact h1.trans (stepRel_notifySoulTrapSuccess Msg.soulDisplaced
        (tryReplaceBlackSoulInDualSoulGemWithWhiteSoul cat st.1 st.2).2.1.curVictim
        (tryReplaceBlackSoulInDualSoulGemWithWhiteSoul cat st.1 st.2).2.1
        (tryReplaceBlackSoulInDualSoulGemWithWhiteSoul cat st.1 st.2).2.2)
    · exact h1
  · exact StepRel.rfl _

/-- A nested two-level search preserves `StepRel` when its steps do. -/
theorem stepRel_nestedSearch (g : Nat → Nat → St → Bool × St)
    (hg : ∀ c e st, StepRel st (g c e st).2) (h : Nat → List Nat) (cs : List Nat) (st : St) :
    StepRel st (tryEach (fun c => tryEach (g c) (h c)) cs st).2 :=
  stepRel_tryEach (fun c => tryEach (g c) (h c))
    (fun c st2 => stepRel_tryEach (g c) (fun e st2 => hg c e st2) (h c) st2) cs st

theorem stepRel_trapFullSoul (cat : Catalog) (d : SoulTrapData) (w : World) :
    StepRel (d, w) (trapFullSoul cat d w).2 := by
  simp only [trapFullSoul]
  generalize (if d.config.allowSoulDisplacement = true then d.curVictim.soulSize else 1) = m
  generalize ((if d.config.allowPartiallyFilling = true then 6
    else toSoulGemCapacity d.curVictim.soulSize) + 1 - toSoulGemCapacity d.curVictim.soulSize) = n
  split
  · split
    · exact stepRel_nestedSearch _ (fun c e st => stepRel_fullStepReloc cat c e st) _ _ _
    · exact (stepRel_nestedSearch _ (fun c e st => stepRel_fullStepReloc cat c e st) _ _ _).trans
        (stepRel_fullSoulFallback cat _)
  · exact stepRel_nestedSearch _ (fun e c st => stepRel_fullStepNoReloc cat c e st) _ _ _

theorem stepRel_shrunkStep (cat : Catalog) (c e : Nat) (st : St) :
    StepRel st (shrunkStep cat c e st).2 := by
  simp only [shrunkStep]
  have h1 : StepRel st (fillSoulGem (getSoulGemsWith cat c e) (toSoulSize c) st.1 st.2).2 :=
    stepRel_fillSoulGem _ _ _ _
  have h2 : StepRel st (notifySoulTrapSuccess Msg.soulShrunk
      (fillSoulGem (getSoulGemsWith cat c e) (toSoulSize c) st.1 st.2).2.1.curVictim
      (fillSoulGem (getSoulGemsWith cat c e) (toSoulSize c) st.1 st.2).2.1
      (fillSoulGem (getSoulGemsWith cat c e) (toSoulSize c) st.1 st.2).2.2) :=
    h1.trans (stepRel_notifySoulTrapSuccess _ _ _ _)
  split
  · split
    · exact h2.trans (StepRel.data _ (Eq.refl _) (Eq.refl _) (Eq.refl _))
    · exact h2
  · exact h1

theorem stepRel_trapShrunkSoul (cat : Catalog) (d : SoulTrapData) (w : World) :
    StepRel (d, w) (trapShrunkSoul cat d w).2 := by
  simp only [trapShrunkSoul]
  exact stepRel_nestedSearch _ (fun c e st => stepRel_shrunkStep cat c e st) _ _ _

theorem stepRel_splitStep (cat : Catalog) (e : Nat) (st : St) :
    StepRel st (splitStep cat e st).2 := by
  simp only [splitStep]
  have h1 : StepRel st (fillSoulGem
      (getSoulGemsWith cat (toSoulGemCapacity st.1.curVictim.soulSize) e)
      st.1.curVictim.soulSize st.1 st.2).2 :=
    stepRel_fillSoulGem _ _ _ _
  have h2 : StepRel st (notifySoulTrapSuccess Msg.soulSplit
      (fillSoulGem (getSoulGemsWith cat (toSoulGemCapacity st.1.curVictim.soulSize) e)
        st.1.curVictim.soulSize st.1 st.2).2.1.curVictim
      (fillSoulGem (getSoulGemsWith cat (toSoulGemCapacity st.1.curVictim.soulSize) e)
        st.1.curVictim.soulSize st.1 st.2).2.1
      (fillSoulGem (getSoulGemsWith cat (toSoulGemCapacity st.1.curVictim.soulSize) e)
        st.1.curVictim.soulSize st.1 st.2).2.2) :=
    h1.trans (stepRel_notifySoulTrapSuccess _ _ _ _)
  split
  · split
    · exact h2.trans (StepRel.data _ (Eq.refl _) (Eq.refl _) (Eq.refl _))
    · exact h2
  · exact h1

theorem stepRel_trapSplitSoul (cat : Catalog) (d : SoulTrapData) (w : World) :
    StepRel (d, w) (trapSplitSoul cat d w).2 := by
  simp only [trapSplitSoul]
  exact stepRel_tryEach (splitStep cat) (fun e st => stepRel_splitStep cat e st) _ (d, w)

theorem stepRel_updateLoopVariables (d : SoulTrapData) (w : World) :
    StepRel (d, w) (updateLoopVariables d w, w) := by
  rcases hv : d.victims with _ | ⟨v, rest⟩
  · simp only [updateLoopVariables, hv]
    exact StepRel.rfl _
  · simp only [updateLoopVariables, hv]
    split
    · exact StepRel.data _ rfl rfl rfl
    · exact StepRel.data _ rfl rfl rfl

theorem stepRel_pushSplitSouls (d : SoulTrapData) (w : World) :
    StepRel (d, w) (pushSplitSouls d, w) :=
  StepRel.data _ rfl rfl rfl

/-- The whole driver loop is a session step. -/
theorem stepRel_runLoop (cat : Catalog) (fuel : Nat) (succ : Bool)
    (d : SoulTrapData) (w : World) :
    StepRel (d, w) ((runLoop cat fuel succ d w).2.1, (runLoop cat fuel succ d w).2.2.1) := by
  induction fuel generalizing succ d w with
  | zero => exact StepRel.rfl _
  | succ fuel ih =>
    show StepRel (d, w) _
    simp only [runLoop]
    split
    · exact StepRel.rfl _
    · have hupd := stepRel_updateLoopVariables d w
      split
      · exact hupd
      · split
        · have hb := stepRel_trapBlackSoul cat (updateLoopVariables d w) w
          split
          · exact (hupd.trans hb).trans (ih _ _ _)
          · exact (hupd.trans hb).trans (ih _ _ _)
        · split
          · have hs := stepRel_trapSplitSoul cat (updateLoopVariables d w) w
            split
            · exact (hupd.trans hs).trans (ih _ _ _)
            · exact ((hupd.trans hs).trans (stepRel_pushSplitSouls _ _)).trans (ih _ _ _)
          · have hf := stepRel_trapFullSoul cat (updateLoopVariables d w) w
            split
            · exact (hupd.trans hf).trans (ih _ _ _)
            · split
              · have hsh := stepRel_trapShrunkSoul cat
                  (trapFullSoul cat (updateLoopVariables d w) w).2.1
                  (trapFullSoul cat (updateLoopVariables d w) w).2.2
                split
                · exact ((hupd.trans hf).trans hsh).trans (ih _ _ _)
                · exact ((hupd.trans hf).trans hsh).trans (ih _ _ _)
              · exact ((hupd.trans hf).trans (stepRel_pushSplitSouls _ _)).trans (ih _ _ _)
              · exact (hupd.trans hf).trans (ih _ _ _)

/-! ## Failure- and success-shape lemmas -/

theorem fillSoulGem_fail_state (src : List GemKind) (t : Nat) (d : SoulTrapData) (w : World)
    (h : (fillSoulGem src t d w).1 = false) : (fillSoulGem src t d w).2 = (d, w) := by
  rcases hf : findFirstOwnedObjectInList d.inventoryMap src with _ | r
  · simp only [fillSoulGem, hf]
  · simp [fillSoulGem, hf] at h

theorem splitStep_fail_id (cat : Catalog) (e : Nat) (st : St)
    (h : (splitStep cat e st).1 = false) : (splitStep cat e st).2 = st := by
  simp only [splitStep] at h ⊢
  by_cases hfill : (fillSoulGem
      (getSoulGemsWith cat (toSoulGemCapacity st.1.curVictim.soulSize) e)
      st.1.curVictim.soulSize st.1 st.2).1 = true
  · rw [if_pos hfill] at h
    split at h <;> simp at h
  · rw [if_neg hfill] at h ⊢
    rw [fillSoulGem_fail_state _ _ _ _ (by simpa using hfill)]

theorem trapSplitSoul_fail_state (cat : Catalog) (d : SoulTrapData) (w : World)
    (h : (trapSplitSoul cat d w).1 = false) : (trapSplitSoul cat d w).2 = (d, w) := by
  simp only [trapSplitSoul] at h ⊢
  exact tryEach_of_fail_id _ (fun x st hx => splitStep_fail_id cat x st hx) _ _ h

theorem updateLoopVariables_spec (d : SoulTrapData) (w : World) (v : Victim) (rest : List Victim)
    (hv : d.victims = v :: rest) :
    (updateLoopVariables d w).curVictim = v ∧ (updateLoopVariables d w).victims = rest := by
  simp only [updateLoopVariables, hv]
  split
  · exact ⟨rfl, rfl⟩
  · exact ⟨rfl, rfl⟩

theorem notifySoulTrapSuccess_victims (m : Msg) (v : Victim) (d : SoulTrapData) (w : World) :
    (notifySoulTrapSuccess m v d w).1.victims = d.victims := by
  simp only [notifySoulTrapSuccess, incrementSoulsTrappedStat, notifyRaw]
  split
  · split <;> split <;> rfl
  · rfl

theorem notifySoulTrapSuccess_config (m : Msg) (v : Victim) (d : SoulTrapData) (w : World) :
    (notifySoulTrapSuccess m v d w).1.config = d.config := by
  simp only [notifySoulTrapSuccess, incrementSoulsTrappedStat, notifyRaw]
  split
  · split <;> split <;> rfl
  · rfl

theorem replaceSoulGem_caster (toAdd toRemove : GemKind) (eE : Option Extra)
    (d : SoulTrapData) (w : World) : (replaceSoulGem toAdd toRemove eE d w).1.caster = d.caster := by
  simp [replaceSoulGem]

/-- On a successful fill, one unit of the matched group's member at the target
contained size is added to the caster's inventory. -/
theorem fillSoulGem_success_count (src : List GemKind) (t : Nat) (d : SoulTrapData) (w : World)
    (r : SearchResult) (hfind : findFirstOwnedObjectInList d.inventoryMap src = some r)
    (hne : soulGemAt r t ≠ r.gem) :
    invCount (getInv (fillSoulGem src t d w).2.2 d.caster) (soulGemAt r t)
      = invCount (getInv w d.caster) (soulGemAt r t) + 1 := by
  simp only [fillSoulGem, hfind, replaceSoulGem]
  rw [getInv_setInv_same]
  rw [invCount_invRemove_ne _ _ hne]
  rw [getInv_setInv_same]
  rw [invCount_invAdd_same]

/-! ## Claim theorems -/

/-- C6: the fill primitive searches the given candidate kinds in order and
acts on the first kind the caster owns in quantity > 0; it returns false
exactly when no such owned candidate exists, and in that case it performs no
inventory mutation, no queue insertion, and does not mark the snapshot dirty
(the session data and the world are returned unchanged). -/
theorem claim_C6_fill_primitive (src : List GemKind) (target : Nat)
    (d : SoulTrapData) (w : World) :
    ((fillSoulGem src target d w).1 = false ↔ ∀ g ∈ src, invCount d.inventoryMap g = 0) ∧
    ((fillSoulGem src target d w).1 = false → fillSoulGem src target d w = (false, d, w)) ∧
    ((fillSoulGem src target d w).1 = true →
      ∃ r, findFirstOwnedObjectInList d.inventoryMap src = some r ∧
        0 < invCount d.inventoryMap r.gem ∧
        ∃ i, ∃ hi : i < src.length, src.get ⟨i, hi⟩ = r.gem ∧
          ∀ j, ∀ hj : j < src.length, j < i → invCount d.inventoryMap (src.get ⟨j, hj⟩) = 0) := by
  refine ⟨?_, ?_, ?_⟩
  · rcases h : findFirstOwnedObjectInList d.inventoryMap src with _ | r
    · simp only [fillSoulGem, h]
      simpa using (findFirstOwned_eq_none_iff d.inventoryMap src).mp h
    · simp only [fillSoulGem, h]
      constructor
      · intro hf
        exact absurd hf (by simp)
      · intro hall
        have h2 := (findFirstOwned_eq_none_iff d.inventoryMap src).mpr hall
        rw [h] at h2
        exact absurd h2 (by simp)
  · intro hf
    rcases h : findFirstOwnedObjectInList d.inventoryMap src with _ | r
    · simp only [fillSoulGem, h]
    · simp [fillSoulGem, h] at hf
  · intro ht
    rcases h : findFirstOwnedObjectInList d.inventoryMap src with _ | r
    · simp [fillSoulGem, h] at ht
    · rcases findFirstOwned_first h with ⟨i, hi, h1, h2, h3, h4⟩
      refine ⟨r, rfl, ?_, i, hi, h1, h4⟩
      simp only [invCount, h2]
      exact h3

def cfgAllOff : Config :=
  ⟨false, false, false, false, false, false, false, false, false, .none⟩

def emptyWorld : World :=
  ⟨[], [], none, [], []⟩

/-- A session holding no soul gems at all, used to instantiate hypotheses. -/
def sessionNoGems : SoulTrapData :=
  { config := cfgAllOff
    caster := 1
    notifyCount := 0
    isStatIncremented := false
    isInventoryMapDirty := false
    casterInventoryStatus := .hasSoulGemsToFill
    inventoryMap := []
    victims := []
    curVictim := dummyVictim
    processed := [] }

theorem claim_C6_fill_primitive_witness :
    (fillSoulGem [⟨0, 3, 0⟩] 3 sessionNoGems emptyWorld).1 = false ∧
    fillSoulGem [⟨0, 3, 0⟩] 3 sessionNoGems emptyWorld = (false, sessionNoGems, emptyWorld) := by
  have h := claim_C6_fill_primitive [⟨0, 3, 0⟩] 3 sessionNoGems emptyWorld
  have hfalse : (fillSoulGem [⟨0, 3, 0⟩] 3 sessionNoGems emptyWorld).1 = false :=
    h.1.mpr (by decide)
  exact ⟨hfalse, h.2.1 hfalse⟩

/-- C5: each precondition fault of the entry point — null caster, null victim,
caster already dead, victim not dead, victim already fully drained — returns
false with the world unchanged (no inventory mutation, no notification, no
statistics event) and an empty processed-victims list (no queue processing).
The trace shows the check order: the four actor checks are performed before
`lockAcquire`, the already-drained check right after it; every call's trace is
a prefix of the full check order. -/
theorem claim_C5_precondition_faults (cat : Catalog) (cfg : Config) (fuel : Nat)
    (caster victim : Option Nat) (w : World) :
    (caster = none → trapSoul cat cfg fuel caster victim w =
      ⟨false, w, [.chkCasterNull], [], true⟩) ∧
    (∀ c, caster = some c → victim = none → trapSoul cat cfg fuel caster victim w =
      ⟨false, w, [.chkCasterNull, .chkVictimNull], [], true⟩) ∧
    (∀ c v, caster = some c → victim = some v → (getActor w c).isDead = true →
      trapSoul cat cfg fuel caster victim w =
        ⟨false, w, [.chkCasterNull, .chkVictimNull, .chkCasterDead], [], true⟩) ∧
    (∀ c v, caster = some c → victim = some v → (getActor w c).isDead = false →
      (getActor w v).isDead = false →
      trapSoul cat cfg fuel caster victim w =
        ⟨false, w, [.chkCasterNull, .chkVictimNull, .chkCasterDead, .chkVictimAlive], [], true⟩) ∧
    (∀ c v, caster = some c → victim = some v → (getActor w c).isDead = false →
      (getActor w v).isDead = true → (getActor w v).soulLevel = 0 →
      trapSoul cat cfg fuel caster victim w =
        ⟨false, w, [.chkCasterNull, .chkVictimNull, .chkCasterDead, .chkVictimAlive,
          .lockAcquire, .chkDrained], [], true⟩) ∧
    (∃ rest, (trapSoul cat cfg fuel caster victim w).trace ++ rest =
      [.chkCasterNull, .chkVictimNull, .chkCasterDead, .chkVictimAlive,
       .lockAcquire, .chkDrained, .sessionRun]) := by
  refine ⟨?_, ?_, ?_, ?_, ?_, ?_⟩
  · rintro rfl
    rfl
  · rintro c rfl rfl
    rfl
  · rintro c v rfl rfl hdead
    simp [trapSoul, hdead]
  · rintro c v rfl rfl hcd hvd
    simp [trapSoul, hcd, hvd]
  · rintro c v rfl rfl hcd hvd hlvl
    simp [trapSoul, hcd, hvd, hlvl]
  · rcases caster with _ | c
    · exact ⟨[.chkVictimNull, .chkCasterDead, .chkVictimAlive, .lockAcquire, .chkDrained,
        .sessionRun], rfl⟩
    rcases victim with _ | v
    · exact ⟨[.chkCasterDead, .chkVictimAlive, .lockAcquire, .chkDrained, .sessionRun], rfl⟩
    by_cases hcd : (getActor w c).isDead = true
    · refine ⟨[.chkVictimAlive, .lockAcquire, .chkDrained, .sessionRun], ?_⟩
      simp [trapSoul, hcd]
    by_cases hvd : (getActor w v).isDead = true
    · by_cases hlvl : (getActor w v).soulLevel = 0
      · refine ⟨[.sessionRun], ?_⟩
        simp [trapSoul, hcd, hvd, hlvl]
      · refine ⟨[], ?_⟩
        simp [trapSoul, hcd, hvd, hlvl]
    · refine ⟨[.lockAcquire, .chkDrained, .sessionRun], ?_⟩
      simp [trapSoul, hcd, hvd]

theorem claim_C5_precondition_faults_witness :
    trapSoul [] cfgAllOff 5 none none emptyWorld =
      ⟨false, emptyWorld, [.chkCasterNull], [], true⟩ :=
  (claim_C5_precondition_faults [] cfgAllOff 5 none none emptyWorld).1 rfl

/-! ## Post-processing bounds (for the notification/statistics latches) -/

theorem notifyRaw_len (m : Msg) (d : SoulTrapData) (w : World) (hcnt : d.notifyCount ≤ 1) :
    (notifyRaw m d w).2.notifications.length + d.notifyCount ≤ w.notifications.length + 1 ∧
    (notifyRaw m d w).2.statEvents = w.statEvents := by
  unfold notifyRaw
  split
  · rename_i h
    simp only [Bool.and_eq_true, decide_eq_true_eq] at h
    constructor
    · simp
      omega
    · rfl
  · constructor
    · simp
      omega
    · rfl

theorem notifySoulTrapFailure_len (m : Msg) (d : SoulTrapData) (w : World)
    (hcnt : d.notifyCount ≤ 1) :
    (notifySoulTrapFailure m d w).2.notifications.length + d.notifyCount ≤
      w.notifications.length + 1 ∧
    (notifySoulTrapFailure m d w).2.statEvents = w.statEvents := by
  unfold notifySoulTrapFailure
  split
  · exact notifyRaw_len m d w hcnt
  · exact ⟨by simp; omega, rfl⟩

theorem trapSoulPost_bounds (v : Nat) (succ : Bool) (d : SoulTrapData) (w : World)
    (hcnt : d.notifyCount ≤ 1) :
    (trapSoulPost v succ d w).notifications.length + d.notifyCount ≤
      w.notifications.length + 1 ∧
    (trapSoulPost v succ d w).statEvents = w.statEvents := by
  unfold trapSoulPost
  split
  · split
    · exact ⟨by simp [setTrapped]; omega, rfl⟩
    · exact ⟨by simp; omega, rfl⟩
  · split
    · exact notifySoulTrapFailure_len _ d w hcnt
    · exact notifySoulTrapFailure_len _ d w hcnt
    · split
      · exact notifySoulTrapFailure_len _ d w hcnt
      · exact notifySoulTrapFailure_len _ d w hcnt

theorem trapSoulPost_inv (v : Nat) (succ : Bool) (d : SoulTrapData) (w : World) (a : Nat) :
    getInv (trapSoulPost v succ d w) a = getInv w a := by
  unfold trapSoulPost notifySoulTrapFailure notifyRaw setTrapped
  split
  · split <;> rfl
  · split
    · split
      · split <;> rfl
      · rfl
    · split
      · split <;> rfl
      · rfl
    · split
      · split
        · split <;> rfl
        · rfl
      · split
        · split <;> rfl
        · rfl

/-- The two sink bounds of a full session, general in the seeded session. -/
theorem session_bounds (cat : Catalog) (fuel : Nat) (v : Nat) (d0 : SoulTrapData) (w : World)
    (hn : d0.notifyCount = 0) (hs : d0.isStatIncremented = false) :
    (trapSoulPost v (runLoop cat fuel false d0 w).1 (runLoop cat fuel false d0 w).2.1
        (runLoop cat fuel false d0 w).2.2.1).notifications.length ≤
      w.notifications.length + 1 ∧
    (trapSoulPost v (runLoop cat fuel false d0 w).1 (runLoop cat fuel false d0 w).2.1
        (runLoop cat fuel false d0 w).2.2.1).statEvents.length ≤
      w.statEvents.length + 1 := by
  obtain ⟨-, -, hlen, hcnt, hstat⟩ := stepRel_runLoop cat fuel false d0 w
  dsimp only at hlen hcnt hstat
  rw [hn] at hlen hcnt
  have hs0 : statN d0 = 0 := by simp [statN, hs]
  rw [hs0] at hstat
  have hc1 : (runLoop cat fuel false d0 w).2.1.notifyCount ≤ 1 := by
    rcases hcnt with h | h <;> omega
  have hpost := trapSoulPost_bounds v (runLoop cat fuel false d0 w).1
    (runLoop cat fuel false d0 w).2.1 (runLoop cat fuel false d0 w).2.2.1 hc1
  have hsn := statN_le_one (runLoop cat fuel false d0 w).2.1
  constructor
  · omega
  · have h2 := congrArg List.length hpost.2
    omega

/-- The inventory frame of a full session, general in the seeded session. -/
theorem session_frame (cat : Catalog) (fuel : Nat) (v : Nat) (d0 : SoulTrapData) (w : World)
    (a : Nat) (ha : a ≠ d0.caster) :
    getInv (trapSoulPost v (runLoop cat fuel false d0 w).1 (runLoop cat fuel false d0 w).2.1
      (runLoop cat fuel false d0 w).2.2.1) a = getInv w a := by
  obtain ⟨-, hfr, -, -, -⟩ := stepRel_runLoop cat fuel false d0 w
  dsimp only at hfr
  rw [trapSoulPost_inv]
  exact hfr a ha

/-- C8: across one top-level call, at most one user-facing notification is
emitted and at most one statistics event is recorded, no matter how many souls
(primary or derived) are processed and placed. -/
theorem claim_C8_notification_latch (cat : Catalog) (cfg : Config) (fuel : Nat)
    (caster victim : Option Nat) (w : World) :
    (trapSoul cat cfg fuel caster victim w).world.notifications.length ≤
      w.notifications.length + 1 ∧
    (trapSoul cat cfg fuel caster victim w).world.statEvents.length ≤
      w.statEvents.length + 1 := by
  rcases caster with _ | c
  · simp [trapSoul]
  rcases victim with _ | v
  · simp [trapSoul]
  by_cases hcd : (getActor w c).isDead = true
  · simp [trapSoul, hcd]
  by_cases hvd : (getActor w v).isDead = true
  · by_cases hlvl : (getActor w v).soulLevel = 0
    · simp [trapSoul, hcd, hvd, hlvl]
    · simp only [trapSoul]
      rw [if_neg hcd, if_neg (by simp [hvd]), if_neg hlvl]
      exact session_bounds cat fuel v _ w rfl rfl
  · simp [trapSoul, hcd, hvd]

/-- C9: when soul diversion applies (both diversion flags set, the caster is a
player teammate and not the player), the session substitutes the player as the
effective caster when the player reference resolves (and keeps the original
caster otherwise); consequently a call mutates no inventory other than the
session caster's. -/
theorem claim_C9_soul_diversion (cat : Catalog) (cfg : Config) (fuel : Nat)
    (c : Nat) (victim : Option Nat) (w : World) :
    (cfg.allowSoulDiversion = true → cfg.performSoulDiversionInDLL = true →
      (getActor w c).isPlayerRef = false → (getActor w c).isPlayerTeammate = true →
      (mkSoulTrapData cfg w c).caster =
        (match w.playerRef with | some p => p | none => c)) ∧
    (∀ a, a ≠ (mkSoulTrapData cfg w c).caster →
      getInv (trapSoul cat cfg fuel (some c) victim w).world a = getInv w a) := by
  constructor
  · intro h1 h2 h3 h4
    simp [mkSoulTrapData, h1, h2, h3, h4]
  · intro a ha
    rcases victim with _ | v
    · simp [trapSoul]
    by_cases hcd : (getActor w c).isDead = true
    · simp [trapSoul, hcd]
    by_cases hvd : (getActor w v).isDead = true
    · by_cases hlvl : (getActor w v).soulLevel = 0
      · simp [trapSoul, hcd, hvd, hlvl]
      · simp only [trapSoul]
        rw [if_neg hcd, if_neg (by simp [hvd]), if_neg hlvl]
        exact session_frame cat fuel v _ w a ha
    · simp [trapSoul, hcd, hvd]

def cfgDiversion : Config :=
  { cfgAllOff with allowSoulDiversion := true, performSoulDiversionInDLL := true }

/-- Teammate caster 1, dead victim 2 with a common soul, player reference 3. -/
def worldDiversion : World :=
  { actors := [(1, ⟨false, 0, false, true, false, false⟩),
               (2, ⟨true, 3, false, false, false, false⟩),
               (3, ⟨false, 0, true, false, false, false⟩)]
    inventories := [(1, [⟨⟨0, 3, 0⟩, 1, none⟩])]
    playerRef := some 3
    notifications := []
    statEvents := [] }

theorem claim_C9_soul_diversion_witness :
    (mkSoulTrapData cfgDiversion worldDiversion 1).caster = 3 ∧
    getInv (trapSoul [] cfgDiversion 5 (some 1) (some 2) worldDiversion).world 1 =
      getInv worldDiversion 1 := by
  have h := claim_C9_soul_diversion [] cfgDiversion 5 1 (some 2) worldDiversion
  constructor
  · have h1 := h.1 rfl rfl rfl rfl
    simpa using h1
  · exact h.2 1 (by decide)

/-- `_splitSoul` enqueues nothing for souls it has no case for (None, Petty,
Black). -/
theorem splitSoul_id (v : Victim) (q : List Victim) (hv : v.soulSize < 2 ∨ 5 < v.soulSize) :
    splitSoul v q = q := by
  unfold splitSoul
  rcases hs : v.soulSize with _ | _ | _ | _ | _ | _ | n
  · rfl
  · rfl
  · omega
  · omega
  · omega
  · omega
  · rfl

/-- C10: under the Split technique a Petty-sized split soul that fails
placement is removed from the queue and discarded: splitting it enqueues
nothing (and likewise a Black or None soul is never split), the driver
continues with the remaining queue, the world — hence inventory and
notifications — unchanged by that iteration.  Black souls that fail the black
strategy are likewise never split by the driver. -/
theorem claim_C10_petty_split_discard (cat : Catalog) :
    (∀ (v : Victim) (q : List Victim), v.soulSize < 2 ∨ 5 < v.soulSize → splitSoul v q = q) ∧
    (∀ (fuel : Nat) (succ : Bool) (d : SoulTrapData) (w : World) (v : Victim)
        (rest : List Victim),
      d.victims = v :: rest → v.kind = .splitSoul → v.soulSize = 1 →
      (updateLoopVariables d w).casterInventoryStatus = .hasSoulGemsToFill →
      (trapSplitSoul cat (updateLoopVariables d w) w).1 = false →
      runLoop cat (fuel + 1) succ d w = runLoop cat fuel succ (updateLoopVariables d w) w ∧
      (updateLoopVariables d w).victims = rest) ∧
    (∀ (fuel : Nat) (succ : Bool) (d : SoulTrapData) (w : World) (v : Victim)
        (rest : List Victim),
      d.victims = v :: rest → v.soulSize = 6 →
      (updateLoopVariables d w).casterInventoryStatus = .hasSoulGemsToFill →
      (trapBlackSoul cat (updateLoopVariables d w) w).1 = false →
      runLoop cat (fuel + 1) succ d w =
        runLoop cat fuel succ (trapBlackSoul cat (updateLoopVariables d w) w).2.1
          (trapBlackSoul cat (updateLoopVariables d w) w).2.2) := by
  refine ⟨?_, ?_, ?_⟩
  · exact fun v q hv => splitSoul_id v q hv
  · intro fuel succ d w v rest hv hkind hsize hstatus hfail
    obtain ⟨hcur, hrest⟩ := updateLoopVariables_spec d w v rest hv
    refine ⟨?_, hrest⟩
    rw [runLoop]
    rw [if_neg (by simp [hv])]
    rw [if_neg (by simp [hstatus])]
    rw [if_neg (by rw [hcur, hsize]; omega)]
    rw [if_pos (by simp [Victim.isSplitSoul, hcur, hkind])]
    rw [if_neg (by simp [hfail])]
    have hstate := trapSplitSoul_fail_state cat (updateLoopVariables d w) w hfail
    have h1 : (trapSplitSoul cat (updateLoopVariables d w) w).2.1 = updateLoopVariables d w := by
      rw [hstate]
    have h2 : (trapSplitSoul cat (updateLoopVariables d w) w).2.2 = w := by
      rw [hstate]
    rw [h1, h2]
    have hpush : pushSplitSouls (updateLoopVariables d w) = updateLoopVariables d w := by
      unfold pushSplitSouls
      rw [splitSoul_id _ _ (Or.inl (by rw [hcur, hsize]; omega))]
    rw [hpush]
  · intro fuel succ d w v rest hv hsize hstatus hfail
    obtain ⟨hcur, hrest⟩ := updateLoopVariables_spec d w v rest hv
    rw [runLoop]
    rw [if_neg (by simp [hv])]
    rw [if_neg (by simp [hstatus])]
    rw [if_pos (by rw [hcur, hsize])]
    rw [if_neg (by simp [hfail])]

/-- A session about to process a failed Petty split soul. -/
def sessionPettySplit : SoulTrapData :=
  { sessionNoGems with victims := [⟨none, 1, .splitSoul⟩] }

theorem claim_C10_petty_split_discard_witness :
    runLoop [] 1 false sessionPettySplit emptyWorld =
      runLoop [] 0 false (updateLoopVariables sessionPettySplit emptyWorld) emptyWorld ∧
    (updateLoopVariables sessionPettySplit emptyWorld).victims = [] :=
  (claim_C10_petty_split_discard []).2.1 0 false sessionPettySplit emptyWorld
    ⟨none, 1, .splitSoul⟩ [] rfl rfl rfl (by decide) (by decide)

/-! ## The search orders of the full-soul and shrunk-soul strategies -/

/-- The relocation-enabled full-soul search as a single linear scan over its
ordered attempt pairs, followed by the dual-gem black-soul fallback. -/
def fullSoulRelocFlat (cat : Catalog) (d : SoulTrapData) (w : World) : Bool × St :=
  let r := tryEach (fun p => fullStepReloc cat p.1 p.2)
    (ascPairs (toSoulGemCapacity d.curVictim.soulSize)
      ((if d.config.allowPartiallyFilling then 6 else toSoulGemCapacity d.curVictim.soulSize) + 1
        - toSoulGemCapacity d.curVictim.soulSize)
      (if d.config.allowSoulDisplacement then d.curVictim.soulSize else 1)) (d, w)
  if r.1 then r else fullSoulFallback cat r.2

theorem fullReloc_nested_eq_flat (cat : Catalog) (m lo n : Nat) (st : St) :
    tryEach (fun c => tryEach (fun e => fullStepReloc cat c e) (List.range m))
      (List.range' lo n) st
      = tryEach (fun p => fullStepReloc cat p.1 p.2) (ascPairs lo n m) st :=
  tryEach_flatMap (fun c e => fullStepReloc cat c e) (fun _ => List.range m)
    (List.range' lo n) st

theorem shrunk_nested_eq_flat (cat : Catalog) (disp : Bool) (cap0 : Nat) (st : St) :
    tryEach (fun c => tryEach (fun e => shrunkStep cat c e)
        (List.range (if disp then toSoulSize c else 1)))
      ((List.range' 1 (cap0 - 1)).reverse) st
      = tryEach (fun p => shrunkStep cat p.1 p.2) (shrunkPairs disp cap0) st :=
  tryEach_flatMap (fun c e => shrunkStep cat c e)
    (fun c => List.range (if disp then toSoulSize c else 1))
    ((List.range' 1 (cap0 - 1)).reverse) st

/-- C3 (amended): the relocation-enabled full-soul search is the first-success
scan over its attempt pairs, and that attempt sequence is ordered
lexicographically: strictly ascending capacity, and within one capacity
strictly ascending contained size — i.e. a smaller capacity is always tried
before a larger one, and within one capacity the *least*-filled (empty-first)
eligible container is tried before a more-filled one. -/
theorem claim_C3_best_fit_order :
    (∀ lo n m : Nat, (ascPairs lo n m).Pairwise lexLt) ∧
    (∀ (cat : Catalog) (d : SoulTrapData) (w : World),
      d.config.allowSoulRelocation = true →
      trapFullSoul cat d w = fullSoulRelocFlat cat d w) := by
  constructor
  · exact fun lo n m => ascPairs_pairwise lo n m
  · intro cat d w h
    simp only [trapFullSoul, fullSoulRelocFlat, h]
    rw [if_pos trivial]
    rw [fullReloc_nested_eq_flat]

/-- A relocation-enabled session processing a primary Common soul. -/
def sessionReloc : SoulTrapData :=
  { sessionNoGems with
      config := { cfgAllOff with allowSoulRelocation := true }
      curVictim := ⟨some 2, 3, .primarySoul⟩ }

theorem claim_C3_best_fit_order_witness :
    trapFullSoul [] sessionReloc emptyWorld = fullSoulRelocFlat [] sessionReloc emptyWorld :=
  claim_C3_best_fit_order.2 [] sessionReloc emptyWorld rfl

/-- C4 (amended): in the relocation-enabled full search the inner
contained-size range is the same at every visited capacity tier: from empty up
to one below the *incoming soul's size* when displacement is enabled (which
coincides with "capacity − 1" only at the soul's own tier), and only empty
when displacement is disabled.  A pair (capacity, contained) is attempted
exactly when the capacity lies between the soul's tier and the configured
maximum and the contained size is below the soul's size (resp. is empty). -/
theorem claim_C4_inner_bound :
    (∀ (d : SoulTrapData) (c e : Nat),
      1 ≤ d.curVictim.soulSize → d.curVictim.soulSize ≤ 5 →
      ((c, e) ∈ ascPairs (toSoulGemCapacity d.curVictim.soulSize)
          ((if d.config.allowPartiallyFilling then 6 else toSoulGemCapacity d.curVictim.soulSize)
            + 1 - toSoulGemCapacity d.curVictim.soulSize)
          (if d.config.allowSoulDisplacement then d.curVictim.soulSize else 1) ↔
        (d.curVictim.soulSize ≤ c ∧
         c ≤ (if d.config.allowPartiallyFilling then 6 else d.curVictim.soulSize) ∧
         e < (if d.config.allowSoulDisplacement then d.curVictim.soulSize else 1)))) ∧
    (∀ (cat : Catalog) (d : SoulTrapData) (w : World),
      d.config.allowSoulRelocation = true →
      trapFullSoul cat d w = fullSoulRelocFlat cat d w) := by
  constructor
  · intro d c e hs1 hs5
    have hcap : toSoulGemCapacity d.curVictim.soulSize = d.curVictim.soulSize := by
      unfold toSoulGemCapacity
      rw [if_neg (by omega)]
    rw [mem_ascPairs, hcap]
    rcases hp : d.config.allowPartiallyFilling
    · simp only [Bool.false_eq_true, if_false]
      omega
    · simp only [if_true]
      omega
  · intro cat d w h
    simp only [trapFullSoul, fullSoulRelocFlat, h]
    rw [if_pos trivial]
    rw [fullReloc_nested_eq_flat]

/-- A session with relocation, displacement and partial filling enabled,
processing a primary Petty soul. -/
def sessionPettyAll : SoulTrapData :=
  { sessionNoGems with
      config := { cfgAllOff with
        allowSoulRelocation := true, allowSoulDisplacement := true,
        allowPartiallyFilling := true }
      curVictim := ⟨some 2, 1, .primarySoul⟩ }

theorem claim_C4_inner_bound_witness :
    (2, 0) ∈ ascPairs (toSoulGemCapacity sessionPettyAll.curVictim.soulSize)
      ((if sessionPettyAll.config.allowPartiallyFilling then 6
        else toSoulGemCapacity sessionPettyAll.curVictim.soulSize)
        + 1 - toSoulGemCapacity sessionPettyAll.curVictim.soulSize)
      (if sessionPettyAll.config.allowSoulDisplacement then sessionPettyAll.curVictim.soulSize
       else 1) ∧
    ¬((2, 1) ∈ ascPairs (toSoulGemCapacity sessionPettyAll.curVictim.soulSize)
      ((if sessionPettyAll.config.allowPartiallyFilling then 6
        else toSoulGemCapacity sessionPettyAll.curVictim.soulSize)
        + 1 - toSoulGemCapacity sessionPettyAll.curVictim.soulSize)
      (if sessionPettyAll.config.allowSoulDisplacement then sessionPettyAll.curVictim.soulSize
       else 1)) := by
  constructor
  · exact (claim_C4_inner_bound.1 sessionPettyAll 2 0 (by decide) (by decide)).mpr (by decide)
  · intro hmem
    have h := (claim_C4_inner_bound.1 sessionPettyAll 2 1 (by decide) (by decide)).mp hmem
    revert h
    decide

theorem fillSoulGem_config (src : List GemKind) (t : Nat) (d : SoulTrapData) (w : World) :
    (fillSoulGem src t d w).2.1.config = d.config := by
  rcases h : findFirstOwnedObjectInList d.inventoryMap src with _ | r
  · simp only [fillSoulGem, h]
  · simp only [fillSoulGem, h, replaceSoulGem]

theorem fillSoulGem_success_of_find (src : List GemKind) (t : Nat) (d : SoulTrapData) (w : World)
    (r : SearchResult) (h : findFirstOwnedObjectInList d.inventoryMap src = some r) :
    (fillSoulGem src t d w).1 = true := by
  simp only [fillSoulGem, h]

theorem notifySoulTrapSuccess_inv (m : Msg) (v : Victim) (d : SoulTrapData) (w : World)
    (a : Nat) : getInv (notifySoulTrapSuccess m v d w).2 a = getInv w a := by
  simp only [notifySoulTrapSuccess, incrementSoulsTrappedStat, notifyRaw]
  split
  · split <;> split <;> rfl
  · rfl

/-- C7: the shrinking strategy equals the first-success scan over
`shrunkPairs`, whose order is capacity strictly descending (starting one below
the soul's natural tier, ending at the smallest tier) with contained size
strictly ascending within one capacity, bounded per tier by that tier's own
capacity when displacement is enabled and by empty otherwise; a successful
step fills the matched gem's group member at exactly that tier's size
(`toSoulSize capacity`), and re-queues the displaced occupant exactly when
relocation is enabled and the slot was non-empty. -/
theorem claim_C7_shrink_strategy :
    (∀ (cat : Catalog) (d : SoulTrapData) (w : World),
      trapShrunkSoul cat d w = tryEach (fun p => shrunkStep cat p.1 p.2)
        (shrunkPairs d.config.allowSoulDisplacement
          (toSoulGemCapacity d.curVictim.soulSize)) (d, w)) ∧
    (∀ (disp : Bool) (cap0 : Nat), (shrunkPairs disp cap0).Pairwise lexDescAsc) ∧
    (∀ (disp : Bool) (cap0 : Nat) (c e : Nat),
      ((c, e) ∈ shrunkPairs disp cap0 ↔
        (1 ≤ c ∧ c < cap0 ∧ e < (if disp then toSoulSize c else 1)))) ∧
    (∀ (cat : Catalog) (c e : Nat) (st : St),
      (fillSoulGem (getSoulGemsWith cat c e) (toSoulSize c) st.1 st.2).1 = true →
      (shrunkStep cat c e st).1 = true ∧
      (shrunkStep cat c e st).2.1.victims =
        (if st.1.config.allowSoulRelocation = true ∧ 0 < e then
          vqInsert ⟨none, e, .displacedSoul⟩
            (fillSoulGem (getSoulGemsWith cat c e) (toSoulSize c) st.1 st.2).2.1.victims
         else (fillSoulGem (getSoulGemsWith cat c e) (toSoulSize c) st.1 st.2).2.1.victims)) ∧
    (∀ (cat : Catalog) (c e : Nat) (st : St) (r : SearchResult),
      e < toSoulSize c →
      findFirstOwnedObjectInList st.1.inventoryMap (getSoulGemsWith cat c e) = some r →
      invCount (getInv (shrunkStep cat c e st).2.2 st.1.caster) (soulGemAt r (toSoulSize c))
        = invCount (getInv st.2 st.1.caster) (soulGemAt r (toSoulSize c)) + 1) := by
  refine ⟨?_, ?_, ?_, ?_, ?_⟩
  · intro cat d w
    exact shrunk_nested_eq_flat cat d.config.allowSoulDisplacement
      (toSoulGemCapacity d.curVictim.soulSize) (d, w)
  · exact fun disp cap0 => shrunkPairs_pairwise disp cap0
  · exact fun disp cap0 c e => mem_shrunkPairs
  · intro cat c e st hfill
    have hconf : (notifySoulTrapSuccess Msg.soulShrunk
        (fillSoulGem (getSoulGemsWith cat c e) (toSoulSize c) st.1 st.2).2.1.curVictim
        (fillSoulGem (getSoulGemsWith cat c e) (toSoulSize c) st.1 st.2).2.1
        (fillSoulGem (getSoulGemsWith cat c e) (toSoulSize c) st.1 st.2).2.2).1.config
        = st.1.config := by
      rw [notifySoulTrapSuccess_config, fillSoulGem_config]
    have hvict : (notifySoulTrapSuccess Msg.soulShrunk
        (fillSoulGem (getSoulGemsWith cat c e) (toSoulSize c) st.1 st.2).2.1.curVictim
        (fillSoulGem (getSoulGemsWith cat c e) (toSoulSize c) st.1 st.2).2.1
        (fillSoulGem (getSoulGemsWith cat c e) (toSoulSize c) st.1 st.2).2.2).1.victims
        = (fillSoulGem (getSoulGemsWith cat c e) (toSoulSize c) st.1 st.2).2.1.victims := by
      rw [notifySoulTrapSuccess_victims]
    simp only [shrunkStep]
    rw [if_pos hfill]
    constructor
    · split <;> rfl
    · split
      · rename_i hcond
        rw [hconf] at hcond
        rw [if_pos hcond]
        simp only [hvict]
      · rename_i hcond
        rw [hconf] at hcond
        rw [if_neg hcond]
        exact hvict
  · intro cat c e st r he hfind
    have hmem := findFirstOwned_mem hfind
    have hattr := mem_getSoulGemsWith hmem
    have hne : soulGemAt r (toSoulSize c) ≠ r.gem := by
      intro hEq
      have h1 := congrArg GemKind.contained hEq
      simp only [soulGemAt] at h1
      omega
    have hcount := fillSoulGem_success_count (getSoulGemsWith cat c e) (toSoulSize c)
      st.1 st.2 r hfind hne
    have hfill := fillSoulGem_success_of_find (getSoulGemsWith cat c e) (toSoulSize c)
      st.1 st.2 r hfind
    simp only [shrunkStep]
    rw [if_pos hfill]
    split
    · simpa [notifySoulTrapSuccess_inv] using hcount
    · simpa [notifySoulTrapSuccess_inv] using hcount

/-- One Lesser-capacity empty gem kind. -/
def catLesserEmpty : Catalog := [⟨7, 2, 0⟩]

/-- A session owning one empty Lesser-capacity gem, processing a Common soul. -/
def sessionShrink : SoulTrapData :=
  { sessionNoGems with
      inventoryMap := [⟨⟨7, 2, 0⟩, 1, none⟩]
      curVictim := ⟨some 2, 3, .primarySoul⟩ }

theorem claim_C7_shrink_strategy_witness :
    (shrunkStep catLesserEmpty 2 0 (sessionShrink, emptyWorld)).1 = true ∧
    invCount (getInv (shrunkStep catLesserEmpty 2 0 (sessionShrink, emptyWorld)).2.2
        sessionShrink.caster) (soulGemAt ⟨⟨7, 2, 0⟩, 1, none⟩ (toSoulSize 2))
      = invCount (getInv emptyWorld sessionShrink.caster)
          (soulGemAt ⟨⟨7, 2, 0⟩, 1, none⟩ (toSoulSize 2)) + 1 := by
  have h4 := claim_C7_shrink_strategy.2.2.2.1 catLesserEmpty 2 0
    (sessionShrink, emptyWorld) (by decide)
  have h5 := claim_C7_shrink_strategy.2.2.2.2 catLesserEmpty 2 0
    (sessionShrink, emptyWorld) ⟨⟨7, 2, 0⟩, 1, none⟩ (by decide) (by decide)
  exact ⟨h4.1, h5⟩

/-! ## Concrete scenarios for the black-soul and split-cascade claims -/

def cfgDisp : Config := { cfgAllOff with allowSoulDisplacement := true }

def cfgDispReloc : Config :=
  { cfgAllOff with allowSoulDisplacement := true, allowSoulRelocation := true }

def cfgSearchAll : Config :=
  { cfgAllOff with
      allowSoulDisplacement := true
      allowSoulRelocation := true
      allowPartiallyFilling := true }

def cfgSplit : Config := { cfgAllOff with technique := .split }

/-- Dual-capacity gem kinds: empty and containing a Petty soul. -/
def catDual : Catalog := [⟨0, 6, 0⟩, ⟨0, 6, 1⟩]

/-- Caster 1 (alive), victim 2 (dead, black soul); caster owns exactly one
empty dual-capacity gem and no dedicated black-capacity gem. -/
def worldDualEmpty : World :=
  { actors := [(1, ⟨false, 0, false, false, false, false⟩),
               (2, ⟨true, 6, false, false, true, false⟩)]
    inventories := [(1, [⟨⟨0, 6, 0⟩, 1, none⟩])]
    playerRef := none
    notifications := []
    statEvents := [] }

/-- As `worldDualEmpty`, but the one dual gem already contains a Petty soul. -/
def worldDualPetty : World :=
  { worldDualEmpty with inventories := [(1, [⟨⟨0, 6, 1⟩, 1, none⟩])] }

/-- C1 counterexample: with displacement disabled the claim expects the entry
point to fail, but the call succeeds — the empty dual-capacity gem is scanned
and filled with the black soul even though displacement is disabled. -/
theorem claim_C1_counterexample :
    (trapSoul catDual cfgAllOff 10 (some 1) (some 2) worldDualEmpty).success = true ∧
    getInv (trapSoul catDual cfgAllOff 10 (some 1) (some 2) worldDualEmpty).world 1
      = [⟨⟨0, 6, 6⟩, 1, none⟩] :=
  ⟨rfl, rfl⟩

/-- C1 (amended): with an empty dual gem and no black gem the entry point
succeeds with the black soul filling the dual slot under *both* displacement
settings; displacement only extends the dual-capacity scan to non-empty
containers: a dual gem holding a white Petty soul is not touched when
displacement is disabled (the call fails), and is overwritten — its occupant
displaced and re-queued — when displacement (with relocation) is enabled. -/
theorem claim_C1_black_soul_scenarios :
    ((trapSoul catDual cfgAllOff 10 (some 1) (some 2) worldDualEmpty).success = true ∧
     getInv (trapSoul catDual cfgAllOff 10 (some 1) (some 2) worldDualEmpty).world 1
       = [⟨⟨0, 6, 6⟩, 1, none⟩]) ∧
    ((trapSoul catDual cfgDisp 10 (some 1) (some 2) worldDualEmpty).success = true ∧
     getInv (trapSoul catDual cfgDisp 10 (some 1) (some 2) worldDualEmpty).world 1
       = [⟨⟨0, 6, 6⟩, 1, none⟩]) ∧
    ((trapSoul catDual cfgAllOff 10 (some 1) (some 2) worldDualPetty).success = false ∧
     getInv (trapSoul catDual cfgAllOff 10 (some 1) (some 2) worldDualPetty).world 1
       = [⟨⟨0, 6, 1⟩, 1, none⟩]) ∧
    ((trapSoul catDual cfgDispReloc 10 (some 1) (some 2) worldDualPetty).success = true ∧
     getInv (trapSoul catDual cfgDispReloc 10 (some 1) (some 2) worldDualPetty).world 1
       = [⟨⟨0, 6, 6⟩, 1, none⟩] ∧
     (trapSoul catDual cfgDispReloc 10 (some 1) (some 2) worldDualPetty).processed
       = [⟨some 2, 6, .primarySoul⟩, ⟨none, 1, .displacedSoul⟩]) :=
  ⟨⟨rfl, rfl⟩, ⟨rfl, rfl⟩, ⟨rfl, rfl⟩, ⟨rfl, rfl, rfl⟩⟩

/-- Caster 1 (alive), victim 2 (dead, Grand soul); the caster owns one empty
black-capacity gem, which keeps the inventory status at "has gems to fill" but
can never receive a white soul — so no split soul is ever placed. -/
def worldGrandUnusable : World :=
  { actors := [(1, ⟨false, 0, false, false, false, false⟩),
               (2, ⟨true, 5, false, false, true, false⟩)]
    inventories := [(1, [⟨⟨9, 7, 0⟩, 1, none⟩])]
    playerRef := none
    notifications := []
    statEvents := [] }

/-- The split-cascade run: Split technique, empty catalog (no white gem kind
ever matches), a single original Grand soul. -/
def splitCascadeRun : TrapResult :=
  trapSoul [] cfgSplit 40 (some 1) (some 2) worldGrandUnusable

/-- C2 counterexample: the cascade produces 12 Petty leaf souls, not 16
(a Grand soul splits into Greater + Common, not into two Greaters). -/
theorem claim_C2_counterexample :
    (splitCascadeRun.processed.filter (fun v => v.soulSize == 1)).length ≠ 16 := by
  decide

/-- C2 (amended): with the Split technique and no usable container, processing
one original Grand soul terminates (the driver loop reaches its own exit),
returns false, and pops exactly 23 victims: the Grand original, then 1
Greater, 3 Common, 6 Lesser and 12 Petty split souls — four split levels
(Grand → Greater + Common, Greater → 2 × Common, Common → 2 × Lesser,
Lesser → 2 × Petty), i.e. 12 Petty-equivalent leaf souls. -/
theorem claim_C2_split_cascade :
    splitCascadeRun.success = false ∧
    splitCascadeRun.completed = true ∧
    splitCascadeRun.processed.length = 23 ∧
    (splitCascadeRun.processed.filter (fun v => v.soulSize == 5)).length = 1 ∧
    (splitCascadeRun.processed.filter (fun v => v.soulSize == 4)).length = 1 ∧
    (splitCascadeRun.processed.filter (fun v => v.soulSize == 3)).length = 3 ∧
    (splitCascadeRun.processed.filter (fun v => v.soulSize == 2)).length = 6 ∧
    (splitCascadeRun.processed.filter (fun v => v.soulSize == 1)).length = 12 :=
  ⟨rfl, rfl, rfl, rfl, rfl, rfl, rfl, rfl⟩

/-- Two Common-capacity gem kinds, one empty (family 2) and one containing a
Petty soul (family 3). -/
def catCommonPair : Catalog := [⟨2, 3, 0⟩, ⟨3, 3, 1⟩]

/-- Caster 1 owns both Common-capacity gems; victim 2 carries a Common soul. -/
def worldCommonPair : World :=
  { actors := [(1, ⟨false, 0, false, false, false, false⟩),
               (2, ⟨true, 3, false, false, true, false⟩)]
    inventories := [(1, [⟨⟨2, 3, 0⟩, 1, none⟩, ⟨⟨3, 3, 1⟩, 1, none⟩])]
    playerRef := none
    notifications := []
    statEvents := [] }

/-- C3 counterexample: with relocation and displacement enabled and two
eligible Common-capacity gems owned — one empty, one holding a Petty soul —
the claim says the most-filled one is chosen first, but the code fills the
*empty* gem (family 2 ends up full, family 3 keeps its Petty soul). -/
theorem claim_C3_counterexample :
    (trapSoul catCommonPair cfgDispReloc 10 (some 1) (some 2) worldCommonPair).success = true ∧
    getInv (trapSoul catCommonPair cfgDispReloc 10 (some 1) (some 2) worldCommonPair).world 1
      = [⟨⟨3, 3, 1⟩, 1, none⟩, ⟨⟨2, 3, 3⟩, 1, none⟩] :=
  ⟨rfl, rfl⟩

/-- One Lesser-capacity gem kind containing a Petty soul. -/
def catLesserPetty : Catalog := [⟨1, 2, 1⟩]

/-- Caster 1 owns the Lesser gem holding a Petty soul; victim 2 carries a
Petty soul. -/
def worldLesserPetty : World :=
  { actors := [(1, ⟨false, 0, false, false, false, false⟩),
               (2, ⟨true, 1, false, false, true, false⟩)]
    inventories := [(1, [⟨⟨1, 2, 1⟩, 1, none⟩])]
    playerRef := none
    notifications := []
    statEvents := [] }

/-- C4 counterexample: a Petty soul with displacement, relocation and partial
filling enabled; the Lesser tier (capacity 2) is visited and the caster owns a
Lesser gem whose contained size 1 equals capacity − 1, so under the claim the
inner loop would reach it and fill it — but the call fails and the world is
unchanged: the inner bound is the soul's size (1), not the tier's capacity. -/
theorem claim_C4_counterexample :
    (trapSoul catLesserPetty cfgSearchAll 10 (some 1) (some 2) worldLesserPetty).success
      = false ∧
    (trapSoul catLesserPetty cfgSearchAll 10 (some 1) (some 2) worldLesserPetty).world
      = worldLesserPetty :=
  ⟨rfl, rfl⟩

end Yastm
